import Mathlib

/-!
Verification development for the Hydration price & volume indexer.

The TypeScript sources are embedded shallowly: `bigint` values become `Nat`
(or `Int` where signed arithmetic matters), decimal-string formatting and
parsing are modelled character-exactly, TS `Map` objects become association
lists with first-occurrence lookup and in-place update, and each exported
function of the price / volume / indexer modules gets a Lean definition that
mirrors its control flow.
-/

set_option maxRecDepth 4000

/-! ## Decimal strings

TS `bigint.toString()` produces the base-10 numeral; `BigInt(s)` parses it.
We model the numeral digit list with fuel-based recursion so everything
reduces definitionally. -/

/-- Little-endian base-10 digits of `n` (fuel-based; fuel `n` suffices). -/
def decDigitsAux : Nat → Nat → List Nat
  | 0, _ => []
  | fuel + 1, n => if n = 0 then [] else n % 10 :: decDigitsAux fuel (n / 10)

/-- Digit value to character, as in decimal `toString`. -/
def decDigitChar (d : Nat) : Char := Char.ofNat (48 + d)

/-- Model of TS `bigint.toString()` for non-negative values. -/
def decString (n : Nat) : String :=
  if n = 0 then "0" else String.mk (((decDigitsAux n n).reverse).map decDigitChar)

/-- Model of TS `bigint.toString()` (signed). -/
def intDecString (i : Int) : String :=
  if i < 0 then "-" ++ decString i.natAbs else decString i.toNat

/-- Numeric value of a decimal character. -/
def charVal (c : Char) : Nat := c.toNat - 48

/-- Model of TS `BigInt(s)` on canonical decimal numerals (digit fold). -/
def decStringToNat (s : String) : Nat :=
  s.data.foldl (fun a c => a * 10 + charVal c) 0

/-- TS `s.padStart(n, '0')`. -/
def padStartZ (s : String) (n : Nat) : String :=
  String.mk (List.replicate (n - s.length) '0') ++ s

/-- TS `s.padEnd(n, '0')`. -/
def padEndZ (s : String) (n : Nat) : String :=
  s ++ String.mk (List.replicate (n - s.length) '0')

/-- TS `s.slice(0, -k)`: all but the last `k` characters. -/
def sliceDropLast (s : String) (k : Nat) : String :=
  String.mk (s.data.take (s.length - k))

/-- TS `s.slice(-k)`: the last `k` characters. -/
def lastChars (s : String) (k : Nat) : String :=
  String.mk (s.data.drop (s.length - k))

/-- TS `s.replace('.', '')`: removes the FIRST occurrence of `'.'` only. -/
def removeFirstDot (s : String) : String :=
  String.mk (go s.data)
where
  go : List Char → List Char
    | [] => []
    | c :: t => if c = '.' then t else c :: go t

/-- The formatting pattern used throughout the price path:
`v.toString().padStart(p+1, '0')`, integer part `slice(0, -p)` (with the
`|| '0'` fallback), decimal part `slice(-p)`, joined by `'.'`. -/
def formatScaled (v : Nat) (p : Nat) : String :=
  let resultStr := padStartZ (decString v) (p + 1)
  let ip := sliceDropLast resultStr p
  let integerPart := if ip = "" then "0" else ip
  let decimalPart := lastChars resultStr p
  integerPart ++ "." ++ decimalPart

/-- The formatting pattern used in the volume path (`calculateUsdtVolume`,
`sumDecimal128Strings`): integer part `v / 10^12`, fractional part
`v % 10^12` left-padded to 12 digits. -/
def formatDec12 (v : Nat) : String :=
  decString (v / 1000000000000) ++ "." ++ padStartZ (decString (v % 1000000000000)) 12

/-- TS `s.split('.')` (structural recursion so it reduces in the kernel). -/
def splitOnDot (s : String) : List String :=
  go s.data []
where
  go : List Char → List Char → List String
    | [], acc => [String.mk acc.reverse]
    | c :: t, acc => if c = '.' then String.mk acc.reverse :: go t [] else go t (c :: acc)

/-- Model of the price-string parsing idiom
`const [i, d=''] = s.split('.'); BigInt(i + d.padEnd(12, '0'))`. -/
def priceStrToInt (price : String) : Nat :=
  let parts := splitOnDot price
  let intPart := parts.headD ""
  let decPart := (parts.get? 1).getD ""
  decStringToNat (intPart ++ padEndZ decPart 12)

/-! ### Round-trip lemmas for decimal strings -/

theorem decDigitsAux_mem_lt (fuel n : Nat) : ∀ d ∈ decDigitsAux fuel n, d < 10 := by
  induction fuel generalizing n with
  | zero => intro d hd; simp [decDigitsAux] at hd
  | succ fuel ih =>
    intro d hd
    by_cases h : n = 0
    · simp [decDigitsAux, h] at hd
    · simp only [decDigitsAux, if_neg h, List.mem_cons] at hd
      rcases hd with h1 | h2
      · omega
      · exact ih _ d h2

theorem charVal_decDigitChar {d : Nat} (h : d < 10) : charVal (decDigitChar d) = d := by
  interval_cases d <;> decide

theorem decDigitChar_ne_dot {d : Nat} (h : d < 10) : decDigitChar d ≠ '.' := by
  interval_cases d <;> decide

private def digitFold (a : Nat) (l : List Char) : Nat :=
  l.foldl (fun a c => a * 10 + charVal c) a

theorem digitFold_shift (l : List Char) (a : Nat) :
    digitFold a l = a * 10 ^ l.length + digitFold 0 l := by
  induction l generalizing a with
  | nil => simp [digitFold]
  | cons c t ih =>
    simp only [digitFold, List.foldl_cons, List.length_cons] at *
    rw [ih (a * 10 + charVal c), ih (0 * 10 + charVal c)]
    ring

theorem digitFold_append (l1 l2 : List Char) (a : Nat) :
    digitFold a (l1 ++ l2) = (digitFold a l1) * 10 ^ l2.length + digitFold 0 l2 := by
  simp only [digitFold, List.foldl_append]
  exact digitFold_shift l2 _

theorem decDigitsAux_spec (fuel : Nat) : ∀ n, n ≤ fuel →
    digitFold 0 (((decDigitsAux fuel n).reverse).map decDigitChar) = n := by
  induction fuel with
  | zero => intro n hn; interval_cases n; simp [decDigitsAux, digitFold]
  | succ fuel ih =>
    intro n hn
    by_cases h : n = 0
    · simp [decDigitsAux, h, digitFold]
    · have hdiv : n / 10 ≤ fuel := by omega
      have hd10 : n % 10 < 10 := Nat.mod_lt _ (by omega)
      simp only [decDigitsAux, if_neg h, List.reverse_cons, List.map_append, List.map_cons,
        List.map_nil]
      rw [digitFold_append]
      rw [ih (n / 10) hdiv]
      simp [digitFold, charVal_decDigitChar hd10]
      omega

theorem decStringToNat_decString (n : Nat) : decStringToNat (decString n) = n := by
  by_cases h : n = 0
  · subst h; decide
  · show digitFold 0 (decString n).data = n
    simp only [decString, if_neg h]
    exact decDigitsAux_spec n n le_rfl

theorem decString_data_digits (n : Nat) : ∀ c ∈ (decString n).data, ∃ d < 10, c = decDigitChar d := by
  by_cases h : n = 0
  · subst h; intro c hc; simp [decString] at hc
    exact ⟨0, by omega, by rw [hc]; decide⟩
  · intro c hc
    simp only [decString, if_neg h] at hc
    rw [List.mem_map] at hc
    obtain ⟨d, hd, rfl⟩ := hc
    rw [List.mem_reverse] at hd
    exact ⟨d, decDigitsAux_mem_lt n n d hd, rfl⟩

theorem decString_no_dot (n : Nat) : '.' ∉ (decString n).data := by
  intro hmem
  obtain ⟨d, hd, hc⟩ := decString_data_digits n '.' hmem
  exact decDigitChar_ne_dot hd hc.symm

theorem digitFold_zeros (k : Nat) :
    digitFold 0 (List.replicate k '0') = 0 := by
  induction k with
  | zero => rfl
  | succ k ih =>
    simp only [List.replicate_succ, digitFold, List.foldl_cons]
    have : (0 : Nat) * 10 + charVal '0' = 0 := by decide
    rw [this]; exact ih

theorem decStringToNat_padStartZ (s : String) (n : Nat) :
    decStringToNat (padStartZ s n) = decStringToNat s := by
  show digitFold 0 (List.replicate (n - s.length) '0' ++ s.data) = digitFold 0 s.data
  rw [digitFold_append, digitFold_zeros]
  omega

theorem removeFirstDot_append (a b : List Char) (ha : '.' ∉ a) :
    removeFirstDot.go (a ++ '.' :: b) = a ++ b := by
  induction a with
  | nil => simp [removeFirstDot.go]
  | cons c t ih =>
    simp only [List.mem_cons, not_or] at ha
    have hc : ¬ c = '.' := fun hcc => ha.1 hcc.symm
    show (if c = '.' then t ++ '.' :: b else c :: removeFirstDot.go (t ++ '.' :: b)) = c :: (t ++ b)
    rw [if_neg hc, ih ha.2]

/-- Length bound on numerals: `n < 10^k` gives at most `k` digits. -/
theorem decDigitsAux_length_le (fuel : Nat) : ∀ n k, n ≤ fuel → n < 10 ^ k →
    (decDigitsAux fuel n).length ≤ k := by
  induction fuel with
  | zero => intro n k hn _; interval_cases n; simp [decDigitsAux]
  | succ fuel ih =>
    intro n k hn hk
    by_cases h : n = 0
    · simp [decDigitsAux, h]
    · have hkpos : k ≠ 0 := by
        intro hk0; subst hk0; simp at hk; omega
      obtain ⟨k', rfl⟩ := Nat.exists_eq_succ_of_ne_zero hkpos
      simp only [decDigitsAux, if_neg h, List.length_cons]
      have : n / 10 < 10 ^ k' := by
        rw [Nat.div_lt_iff_lt_mul (by omega)]
        calc n < 10 ^ (k' + 1) := hk
        _ = 10 ^ k' * 10 := by ring
      have := ih (n / 10) k' (by omega) this
      omega

theorem decString_length_le {n k : Nat} (hk : 1 ≤ k) (h : n < 10 ^ k) :
    (decString n).length ≤ k := by
  by_cases h0 : n = 0
  · subst h0; simpa [decString] using hk
  · simp only [decString, if_neg h0]
    show (((decDigitsAux n n).reverse).map decDigitChar).length ≤ k
    simp only [List.length_map, List.length_reverse]
    exact decDigitsAux_length_le n n k le_rfl h

/-- Parsing a 12-decimal string back to its scaled integer value. -/
def dec12ToNat (s : String) : Nat := decStringToNat (removeFirstDot s)

theorem dec12ToNat_formatDec12 (v : Nat) : dec12ToNat (formatDec12 v) = v := by
  have hmod : v % 1000000000000 < 10 ^ 12 := by
    have h := Nat.mod_lt v (y := 1000000000000) (by norm_num)
    calc v % 1000000000000 < 1000000000000 := h
    _ ≤ 10 ^ 12 := by norm_num
  have hle : (decString (v % 1000000000000)).data.length ≤ 12 :=
    decString_length_le (by norm_num) hmod
  have hlen : (padStartZ (decString (v % 1000000000000)) 12).data.length = 12 := by
    show (List.replicate (12 - (decString (v % 1000000000000)).length) '0' ++
      (decString (v % 1000000000000)).data).length = 12
    rw [List.length_append, List.length_replicate]
    have hq : (decString (v % 1000000000000)).length =
        (decString (v % 1000000000000)).data.length := rfl
    omega
  have hdata : (formatDec12 v).data = (decString (v / 1000000000000)).data ++
      '.' :: (padStartZ (decString (v % 1000000000000)) 12).data := by
    show ((decString (v / 1000000000000)).data ++ ['.']) ++
      (padStartZ (decString (v % 1000000000000)) 12).data = _
    rw [List.append_assoc]
    rfl
  show digitFold 0 (removeFirstDot.go (formatDec12 v).data) = v
  rw [hdata, removeFirstDot_append _ _ (decString_no_dot _), digitFold_append]
  have h1 : digitFold 0 (decString (v / 1000000000000)).data = v / 1000000000000 :=
    decStringToNat_decString _
  have h2 : digitFold 0 (padStartZ (decString (v % 1000000000000)) 12).data = v % 1000000000000 := by
    have h := decStringToNat_padStartZ (decString (v % 1000000000000)) 12
    rw [decStringToNat_decString] at h
    exact h
  rw [h1, h2, hlen]
  omega

/-! ## TS `Map` model

A TS `Map` keeps insertion order; `set` overwrites an existing key in place
and appends a new key at the end; `get` returns the value of the (unique)
entry with that key. We model it by an association list. -/

def tsGet {β : Type} : List (Nat × β) → Nat → Option β
  | [], _ => none
  | (k', v) :: t, k => if k' = k then some v else tsGet t k

def tsSet {β : Type} : List (Nat × β) → Nat → β → List (Nat × β)
  | [], k, v => [(k, v)]
  | (k', v') :: t, k, v => if k' = k then (k, v) :: t else (k', v') :: tsSet t k v

def tsKeys {β : Type} (m : List (Nat × β)) : List Nat := m.map (·.1)

theorem tsGet_set_self {β : Type} (m : List (Nat × β)) (k : Nat) (v : β) :
    tsGet (tsSet m k v) k = some v := by
  induction m with
  | nil => simp [tsGet, tsSet]
  | cons e t ih =>
    obtain ⟨k', v'⟩ := e
    by_cases h : k' = k
    · simp [tsSet, tsGet, h]
    · simp [tsSet, tsGet, h, ih]

theorem tsGet_set_ne {β : Type} (m : List (Nat × β)) (k k' : Nat) (v : β) (h : k' ≠ k) :
    tsGet (tsSet m k v) k' = tsGet m k' := by
  induction m with
  | nil => simp [tsGet, tsSet, Ne.symm h]
  | cons e t ih =>
    obtain ⟨k0, v0⟩ := e
    simp only [tsSet]
    by_cases h0 : k0 = k
    · rw [if_pos h0]
      simp [tsGet, h0, Ne.symm h]
    · rw [if_neg h0]
      simp [tsGet, ih]

theorem tsSet_absent {β : Type} (m : List (Nat × β)) (k : Nat) (v : β)
    (h : tsGet m k = none) : tsSet m k v = m ++ [(k, v)] := by
  induction m with
  | nil => simp [tsSet]
  | cons e t ih =>
    obtain ⟨k0, v0⟩ := e
    by_cases h0 : k0 = k
    · simp [tsGet, h0] at h
    · simp only [tsGet, if_neg h0] at h
      simp [tsSet, h0, ih h]

theorem tsGet_append_left {β : Type} (m e : List (Nat × β)) (k : Nat) (v : β)
    (h : tsGet m k = some v) : tsGet (m ++ e) k = some v := by
  induction m with
  | nil => simp [tsGet] at h
  | cons hd t ih =>
    obtain ⟨k0, v0⟩ := hd
    by_cases h0 : k0 = k
    · simp only [tsGet, if_pos h0] at h
      simp [tsGet, h0, h]
    · simp only [tsGet, if_neg h0] at h
      simp [tsGet, h0, ih h]

theorem tsGet_eq_none_iff {β : Type} (m : List (Nat × β)) (k : Nat) :
    tsGet m k = none ↔ k ∉ tsKeys m := by
  induction m with
  | nil => simp [tsGet, tsKeys]
  | cons e t ih =>
    obtain ⟨k0, v0⟩ := e
    by_cases h0 : k0 = k
    · simp [tsGet, tsKeys, h0]
    · simp [tsGet, tsKeys, h0, ih, Ne.symm h0]

theorem tsGet_isSome_iff {β : Type} (m : List (Nat × β)) (k : Nat) :
    (tsGet m k).isSome = true ↔ k ∈ tsKeys m := by
  rcases h : tsGet m k with _ | v
  · rw [tsGet_eq_none_iff] at h
    simp [h]
  · constructor
    · intro _
      by_contra hk
      rw [← tsGet_eq_none_iff, h] at hk
      cases hk
    · intro _
      rfl

theorem tsKeys_set_present {β : Type} (m : List (Nat × β)) (k : Nat) (v : β)
    (h : (tsGet m k).isSome = true) : tsKeys (tsSet m k v) = tsKeys m := by
  induction m with
  | nil => simp [tsGet] at h
  | cons e t ih =>
    obtain ⟨k0, v0⟩ := e
    by_cases h0 : k0 = k
    · simp [tsSet, tsKeys, h0]
    · simp only [tsGet, if_neg h0] at h
      simp only [tsSet, if_neg h0]
      show k0 :: tsKeys (tsSet t k v) = k0 :: tsKeys t
      rw [ih h]

theorem tsSet_length {β : Type} (m : List (Nat × β)) (k : Nat) (v : β) :
    (tsSet m k v).length = if (tsGet m k).isSome then m.length else m.length + 1 := by
  induction m with
  | nil => simp [tsSet, tsGet]
  | cons e t ih =>
    obtain ⟨k0, v0⟩ := e
    by_cases h0 : k0 = k
    · simp [tsSet, tsGet, h0]
    · simp only [tsSet, if_neg h0, tsGet, List.length_cons, ih]
      by_cases hs : (tsGet t k).isSome <;> simp [hs]

theorem tsKeys_nodup_set {β : Type} (m : List (Nat × β)) (k : Nat) (v : β)
    (h : (tsKeys m).Nodup) : (tsKeys (tsSet m k v)).Nodup := by
  rcases hk : tsGet m k with _ | v0
  · rw [tsSet_absent m k v hk]
    rw [tsGet_eq_none_iff] at hk
    simp only [tsKeys, List.map_append, List.map_cons, List.map_nil]
    rw [List.nodup_append]
    refine ⟨h, List.nodup_singleton k, ?_⟩
    intro a ha hb
    simp at hb
    subst hb
    exact hk ha
  · have : (tsGet m k).isSome = true := by simp [hk]
    rw [tsKeys_set_present m k v this]
    exact h

theorem tsGet_mem {β : Type} (m : List (Nat × β)) (k : Nat) (v : β)
    (h : tsGet m k = some v) : (k, v) ∈ m := by
  induction m with
  | nil => simp [tsGet] at h
  | cons e t ih =>
    obtain ⟨k0, v0⟩ := e
    by_cases h0 : k0 = k
    · subst h0
      simp only [tsGet, if_pos rfl] at h
      injection h with hv
      subst hv
      exact List.mem_cons_self _ _
    · simp only [tsGet, if_neg h0] at h
      exact List.mem_cons_of_mem _ (ih h)

theorem mem_tsGet {β : Type} (m : List (Nat × β)) (k : Nat) (v : β)
    (hnd : (tsKeys m).Nodup) (h : (k, v) ∈ m) : tsGet m k = some v := by
  induction m with
  | nil => simp at h
  | cons e t ih =>
    obtain ⟨k0, v0⟩ := e
    simp only [tsKeys, List.map_cons, List.nodup_cons] at hnd
    rcases List.mem_cons.mp h with h1 | h2
    · injection h1 with e1 e2
      show (if k0 = k then some v0 else tsGet t k) = some v
      rw [if_pos e1.symm, e2]
    · have hk0 : k0 ≠ k := by
        intro he
        apply hnd.1
        rw [he]
        simpa using List.mem_map_of_mem (fun x => x.1) h2
      simp only [tsGet, if_neg hk0]
      exact ih hnd.2 h2

theorem tsGet_mem_keys {β : Type} (m : List (Nat × β)) (k : Nat) (v : β)
    (h : tsGet m k = some v) : k ∈ tsKeys m := by
  rw [← tsGet_isSome_iff, h]
  rfl

/-! ## Data model (src/price/types.ts) -/

structure OmnipoolAssetState where
  hubReserve : Nat
  reserve : Nat
  shares : Nat
  protocolShares : Nat
  cap : Nat
  tradable : Nat
deriving DecidableEq

structure XYKPool where
  assetA : Nat
  assetB : Nat
  reserveA : Nat
  reserveB : Nat
deriving DecidableEq

structure StableswapPool where
  poolId : Nat
  assets : List Nat
  reserves : List Int
  amplification : Int
  fee : Nat
deriving DecidableEq

/-- `PriceMap = Map<number, string>`. -/
abbrev PriceMap := List (Nat × String)

/-- `AssetDecimals = Map<number, number>`. -/
abbrev AssetDecimals := List (Nat × Nat)

/-- JS `x || d` on an optional number: `undefined` and `0` are falsy. -/
def orDefault (o : Option Nat) (dflt : Nat) : Nat :=
  match o with
  | some v => if v = 0 then dflt else v
  | none => dflt

/-! ## src/price/omnipool.ts -/

/-- `bigintDivide(numerator, denominator, precision)`; `none` models the
division-by-zero throw. The format is the shared padStart/slice pattern. -/
def bigintDivide (numerator denominator : Nat) (precision : Nat) : Option String :=
  if denominator = 0 then none
  else some (formatScaled ((numerator * 10 ^ precision) / denominator) precision)

/-- `calculateLRNAPrice`; `none` models the zero-hub-reserve throw. -/
def calculateLRNAPrice (usdtState : OmnipoolAssetState) (usdtDecimals : Nat) : Option String :=
  if usdtState.hubReserve = 0 then none
  else bigintDivide (usdtState.reserve * 10 ^ 12) (usdtState.hubReserve * 10 ^ usdtDecimals) 12

/-- `calculateOmnipoolPrices`: for every asset with non-zero reserves and
known decimals, `(hubReserve * 10^dec * lrnaPriceInt) / (reserve * 10^12)`
formatted at 12 decimals. -/
def calculateOmnipoolPricesStep (lrnaPrice : String) (decimals : AssetDecimals)
    (prices : PriceMap) (kv : Nat × OmnipoolAssetState) : PriceMap :=
  let assetId := kv.1
  let state := kv.2
  if state.reserve = 0 ∨ state.hubReserve = 0 then prices
  else
    match tsGet decimals assetId with
    | none => prices
    | some assetDecimals =>
      let result := (state.hubReserve * 10 ^ assetDecimals * priceStrToInt lrnaPrice) /
        (state.reserve * 10 ^ 12)
      tsSet prices assetId (formatScaled result 12)

def calculateOmnipoolPrices (assets : List (Nat × OmnipoolAssetState)) (lrnaPrice : String)
    (decimals : AssetDecimals) : PriceMap :=
  assets.foldl (calculateOmnipoolPricesStep lrnaPrice decimals) []

/-! ## src/price/xyk.ts -/

/-- `calculateXYKPrice` (precision is 12 at every call site). -/
def calculateXYKPrice (knownPrice : String) (knownReserve unknownReserve : Nat)
    (knownDecimals unknownDecimals : Nat) : String :=
  formatScaled ((knownReserve * 10 ^ unknownDecimals * priceStrToInt knownPrice) /
    (unknownReserve * 10 ^ knownDecimals)) 12

/-- `calculateXYKPrices`: one pass over the pools, deriving the unpriced side
of each pool whose other side is priced. -/
def calculateXYKPricesStep (knownPrices : PriceMap) (decimals : AssetDecimals)
    (newPrices : PriceMap) (pool : XYKPool) : PriceMap :=
  if pool.reserveA = 0 ∨ pool.reserveB = 0 then newPrices
  else
    match tsGet decimals pool.assetA, tsGet decimals pool.assetB with
    | some decimalsA, some decimalsB =>
      match tsGet knownPrices pool.assetA, tsGet knownPrices pool.assetB with
      | some priceA, none =>
        tsSet newPrices pool.assetB
          (calculateXYKPrice priceA pool.reserveA pool.reserveB decimalsA decimalsB)
      | none, some priceB =>
        tsSet newPrices pool.assetA
          (calculateXYKPrice priceB pool.reserveB pool.reserveA decimalsB decimalsA)
      | _, _ => newPrices
    | _, _ => newPrices

def calculateXYKPrices (pools : List XYKPool) (knownPrices : PriceMap)
    (decimals : AssetDecimals) : PriceMap :=
  pools.foldl (calculateXYKPricesStep knownPrices decimals) []

/-! ## src/price/stableswap.ts

TS `bigint` is signed, so the curve math is embedded over `Int` with
truncating division (`Int.tdiv`), which is TS `bigint` division. -/

/-- Newton iteration for the invariant D (`MAX_D_ITERATIONS = 64` fuel). -/
def calculateDLoop (reserves : List Int) (n sum ann : Int) : Nat → Int → Int
  | 0, d => d
  | fuel + 1, d =>
    let d_prod := reserves.foldl (fun dp r => Int.tdiv (dp * d) (r * n)) d
    let numerator := (ann * sum + d_prod * n) * d
    let denominator := (ann - 1) * d + (n + 1) * d_prod
    let d' := Int.tdiv numerator denominator
    let diff := if d' > d then d' - d else d - d'
    if diff ≤ 1 then d' else calculateDLoop reserves n sum ann fuel d'

/-- `calculateD(reserves, amplification)`. -/
def calculateD (reserves : List Int) (amplification : Int) : Int :=
  if reserves.any (· = 0) then 0
  else
    let n : Int := (reserves.length : Int)
    let sum := reserves.foldl (· + ·) 0
    let ann := amplification * n ^ reserves.length
    calculateDLoop reserves n sum ann 64 sum

/-- Newton iteration for Y (`MAX_Y_ITERATIONS = 128` fuel). -/
def calculateYLoop (c b d : Int) : Nat → Int → Int
  | 0, y => y
  | fuel + 1, y =>
    let numerator := y * y + c
    let denominator := 2 * y + b - d
    let y' := Int.tdiv numerator denominator
    let diff := if y' > y then y' - y else y - y'
    if diff ≤ 1 then y' else calculateYLoop c b d fuel y'

/-- `calculateY(reserves, amplification, targetIndex, d)`. -/
def calculateY (reserves : List Int) (amplification : Int) (targetIndex : Nat) (d : Int) : Int :=
  let n : Int := (reserves.length : Int)
  let ann := amplification * n ^ reserves.length
  let sc := reserves.enum.foldl (fun (acc : Int × Int) p =>
    if p.1 ≠ targetIndex then (acc.1 + p.2, Int.tdiv (acc.2 * d) (p.2 * n)) else acc) (0, d)
  let c := Int.tdiv (sc.2 * d) (ann * n)
  let b := sc.1 + Int.tdiv d ann
  calculateYLoop c b d 128 d

/-- `calculateSpotPrice(pool, assetInIndex, assetOutIndex, decimals)`. -/
def calculateSpotPrice (pool : StableswapPool) (assetInIndex assetOutIndex : Nat)
    (decimals : AssetDecimals) : Int :=
  let assetInId := pool.assets.getD assetInIndex 0
  let assetOutId := pool.assets.getD assetOutIndex 0
  let assetInDecimals := orDefault (tsGet decimals assetInId) 12
  let assetOutDecimals := orDefault (tsGet decimals assetOutId) 12
  let d := calculateD pool.reserves pool.amplification
  if d = 0 then 0
  else
    let swapAmount := Int.tdiv (pool.reserves.getD assetInIndex 0) 10000
    if swapAmount = 0 then 0
    else
      let newReserves := pool.reserves.set assetInIndex (pool.reserves.getD assetInIndex 0 + swapAmount)
      let newAssetOutReserve := calculateY newReserves pool.amplification assetOutIndex d
      let assetOutReceived := pool.reserves.getD assetOutIndex 0 - newAssetOutReserve
      Int.tdiv (assetOutReceived * 10 ^ assetInDecimals * 10 ^ 12)
        (swapAmount * 10 ^ assetOutDecimals)

/-- The `padStart(13, '0')`/slice formatting applied to a signed value
(`calculateStableswapPrices` result formatting). -/
def formatScaledInt (v : Int) (p : Nat) : String :=
  let resultStr := padStartZ (intDecString v) (p + 1)
  let ip := sliceDropLast resultStr p
  let integerPart := if ip = "" then "0" else ip
  let decimalPart := lastChars resultStr p
  integerPart ++ "." ++ decimalPart

/-- Entry of the `knownAssets` list in `calculateStableswapPrices`. -/
structure KnownAsset where
  assetId : Nat
  price : String
  decimals : Nat
  index : Nat

/-- Entry of the `unknownAssets` list in `calculateStableswapPrices`. -/
structure UnknownAsset where
  assetId : Nat
  decimals : Nat
  index : Nat

/-- The `knownAssets` scan of one pool in `calculateStableswapPrices`. -/
def ssKnownAssets (pool : StableswapPool) (knownPrices : PriceMap)
    (decimals : AssetDecimals) : List KnownAsset :=
  pool.assets.enum.filterMap (fun p =>
    match tsGet decimals p.2 with
    | none => none
    | some dcm =>
      match tsGet knownPrices p.2 with
      | some price => some ⟨p.2, price, dcm, p.1⟩
      | none => none)

/-- The `unknownAssets` scan of one pool in `calculateStableswapPrices`. -/
def ssUnknownAssets (pool : StableswapPool) (knownPrices : PriceMap)
    (decimals : AssetDecimals) : List UnknownAsset :=
  pool.assets.enum.filterMap (fun p =>
    match tsGet decimals p.2 with
    | none => none
    | some dcm =>
      match tsGet knownPrices p.2 with
      | some _ => none
      | none => some ⟨p.2, dcm, p.1⟩)

/-- Pricing of a single unknown asset against the reference asset. -/
def ssUnknownStep (pool : StableswapPool) (referenceAsset : KnownAsset)
    (decimals : AssetDecimals) (np : PriceMap) (ua : UnknownAsset) : PriceMap :=
  let spotPrice := calculateSpotPrice pool ua.index referenceAsset.index decimals
  if spotPrice = 0 then np
  else
    let referencePriceBigint : Int := (priceStrToInt referenceAsset.price : Int)
    let unknownPriceBigint := Int.tdiv (referencePriceBigint * spotPrice) (10 ^ 12)
    tsSet np ua.assetId (formatScaledInt unknownPriceBigint 12)

/-- Processing of one pool in `calculateStableswapPrices`. -/
def calculateStableswapPricesStep (knownPrices : PriceMap) (decimals : AssetDecimals)
    (newPrices : PriceMap) (pool : StableswapPool) : PriceMap :=
  if pool.reserves.any (· = 0) then newPrices
  else
    match ssKnownAssets pool knownPrices decimals with
    | [] => newPrices
    | referenceAsset :: _ =>
      if (ssUnknownAssets pool knownPrices decimals).isEmpty then newPrices
      else
        (ssUnknownAssets pool knownPrices decimals).foldl
          (ssUnknownStep pool referenceAsset decimals) newPrices

def calculateStableswapPrices (pools : List StableswapPool) (knownPrices : PriceMap)
    (decimals : AssetDecimals) : PriceMap :=
  pools.foldl (calculateStableswapPricesStep knownPrices decimals) []

/-! ## src/price/graph.ts -/

/-- `findMostLiquidStableLPToken`: Stableswap pool containing USDT whose LP
token is an Omnipool asset, maximizing hub reserve (strict improvement). -/
def findMostLiquidStableLPToken (stableswapPools : List StableswapPool)
    (omnipoolAssets : List (Nat × OmnipoolAssetState)) (usdtAssetId : Nat) : Option Nat :=
  (stableswapPools.foldl (fun (acc : Option Nat × Nat) pool =>
    if usdtAssetId ∈ pool.assets then
      match tsGet omnipoolAssets pool.poolId with
      | some omnipoolState =>
        if omnipoolState.hubReserve > acc.2 then (some pool.poolId, omnipoolState.hubReserve)
        else acc
      | none => acc
    else acc) (none, 0)).1

/-- One merge of freshly derived prices into the accumulating map, skipping
assets already priced via the Omnipool (routing preference). -/
def mergeNewPricesStep (omnipoolPricedAssets : List Nat) (p : PriceMap)
    (kv : Nat × String) : PriceMap :=
  if kv.1 ∈ omnipoolPricedAssets then p else tsSet p kv.1 kv.2

def mergeNewPrices (prices newPrices : PriceMap) (omnipoolPricedAssets : List Nat) : PriceMap :=
  newPrices.foldl (mergeNewPricesStep omnipoolPricedAssets) prices

/-- One iteration of the propagation fixpoint: XYK pass then Stableswap pass. -/
def propagationStep (xykPools : List XYKPool) (stableswapPools : List StableswapPool)
    (decimals : AssetDecimals) (omnipoolPricedAssets : List Nat) (prices : PriceMap) : PriceMap :=
  let p1 := mergeNewPrices prices (calculateXYKPrices xykPools prices decimals) omnipoolPricedAssets
  mergeNewPrices p1 (calculateStableswapPrices stableswapPools p1 decimals) omnipoolPricedAssets

/-- The bounded fixpoint loop (`maxIterations = 10`), breaking as soon as an
iteration adds no new price. -/
def propagationLoop (xykPools : List XYKPool) (stableswapPools : List StableswapPool)
    (decimals : AssetDecimals) (omnipoolPricedAssets : List Nat) : Nat → PriceMap → PriceMap
  | 0, prices => prices
  | fuel + 1, prices =>
    let pricesBefore := prices.length
    let prices' := propagationStep xykPools stableswapPools decimals omnipoolPricedAssets prices
    if prices'.length = pricesBefore then prices'
    else propagationLoop xykPools stableswapPools decimals omnipoolPricedAssets fuel prices'

/-- The LRNA price derived from USDT's own Omnipool state (the `usdtState`
branch of `resolvePrices`; the try/catch is the `Option`). -/
def lrnaViaUsdt (omnipoolAssets : List (Nat × OmnipoolAssetState)) (decimals : AssetDecimals)
    (usdtAssetId : Nat) : Option String :=
  match tsGet omnipoolAssets usdtAssetId with
  | some usdtState => calculateLRNAPrice usdtState (orDefault (tsGet decimals usdtAssetId) 6)
  | none => none

/-- The LRNA-price anchoring block of `resolvePrices`: yields
`(lrnaPrice, stablePoolLPId, prices)` after the USDT branch and the
stable-LP fallback. -/
def anchorTriple (omnipoolAssets : List (Nat × OmnipoolAssetState))
    (stableswapPools : List StableswapPool) (decimals : AssetDecimals)
    (usdtAssetId : Nat) : Option String × Option Nat × PriceMap :=
  let prices0 : PriceMap := tsSet [] usdtAssetId "1.000000000000"
  match lrnaViaUsdt omnipoolAssets decimals usdtAssetId with
  | some p => (some p, none, prices0)
  | none =>
    match findMostLiquidStableLPToken stableswapPools omnipoolAssets usdtAssetId with
    | some lpId =>
      match tsGet omnipoolAssets lpId with
      | some lpState =>
        match calculateLRNAPrice lpState (orDefault (tsGet decimals lpId) 18) with
        | some p => (some p, some lpId, tsSet prices0 lpId "1.000000000000")
        | none => (none, some lpId, prices0)
      | none => (none, some lpId, prices0)
    | none => (none, none, prices0)

/-- The merge of the Omnipool phase into the price map: anchors (USDT and the
stable-LP token) are never overwritten. -/
def omnipoolMergeStep (usdtAssetId : Nat) (stablePoolLPId : Option Nat) (p : PriceMap)
    (kv : Nat × String) : PriceMap :=
  if kv.1 ≠ usdtAssetId ∧ stablePoolLPId ≠ some kv.1 then tsSet p kv.1 kv.2 else p

/-- The price map after the anchoring and Omnipool phases of `resolvePrices`,
before the propagation loop. -/
def anchorPhase (omnipoolAssets : List (Nat × OmnipoolAssetState))
    (stableswapPools : List StableswapPool) (decimals : AssetDecimals)
    (usdtAssetId lrnaAssetId : Nat) : PriceMap :=
  let a := anchorTriple omnipoolAssets stableswapPools decimals usdtAssetId
  match a.1 with
  | none => a.2.2
  | some lp =>
    let pricesL := tsSet a.2.2 lrnaAssetId lp
    (calculateOmnipoolPrices omnipoolAssets lp decimals).foldl
      (omnipoolMergeStep usdtAssetId a.2.1) pricesL

/-- `resolvePrices(omnipoolAssets, xykPools, stableswapPools, decimals,
usdtAssetId = 10, lrnaAssetId = 1)`. -/
def resolvePrices (omnipoolAssets : List (Nat × OmnipoolAssetState)) (xykPools : List XYKPool)
    (stableswapPools : List StableswapPool) (decimals : AssetDecimals)
    (usdtAssetId lrnaAssetId : Nat) : PriceMap :=
  let prices2 := anchorPhase omnipoolAssets stableswapPools decimals usdtAssetId lrnaAssetId
  let omnipoolPricedAssets := (tsKeys prices2).filter (· ≠ usdtAssetId)
  propagationLoop xykPools stableswapPools decimals omnipoolPricedAssets 10 prices2

/-! ## src/db/schema.ts (rows) -/

structure PriceRow where
  asset_id : Nat
  block_height : Nat
  usdt_price : String
  native_volume_buy : Option String
  native_volume_sell : Option String
  usdt_volume_buy : Option String
  usdt_volume_sell : Option String
deriving DecidableEq

structure BlockRow where
  block_height : Nat
  block_timestamp : String
  spec_version : Nat
deriving DecidableEq

structure AssetRow where
  asset_id : Nat
  symbol : String
  name : String
  decimals : Nat
deriving DecidableEq

structure RuntimeUpgradeRow where
  block_height : Nat
  spec_version : Nat
  prev_spec_version : Nat
deriving DecidableEq

/-! ## src/blocks/extractVolume.ts -/

structure DecodedSwap where
  assetIn : Nat
  assetOut : Nat
  amountIn : Nat
  amountOut : Nat
deriving DecidableEq

/-- `calculateUsdtVolume(nativeAmount, assetId, prices, decimals)`.
The `!priceStr` falsy check catches both a missing price and `""`. -/
def calculateUsdtVolume (nativeAmount : Nat) (assetId : Nat) (prices : PriceMap)
    (decimals : AssetDecimals) : String :=
  if nativeAmount = 0 then "0.000000000000"
  else
    match tsGet prices assetId with
    | none => "0.000000000000"
    | some priceStr =>
      if priceStr = "" then "0.000000000000"
      else
        let assetDecimals := (tsGet decimals assetId).getD 12
        let priceBigInt := dec12ToNat priceStr
        let volumeBigInt := (nativeAmount * priceBigInt) / 10 ^ assetDecimals
        formatDec12 volumeBigInt

/-- `swapToVolumeRows(swap, blockHeight, prices, decimals)`: exactly two rows,
sell contribution for `assetIn` and buy contribution for `assetOut`. -/
def swapToVolumeRows (swap : DecodedSwap) (blockHeight : Nat) (prices : PriceMap)
    (decimals : AssetDecimals) : List PriceRow :=
  let usdtVolumeSell := calculateUsdtVolume swap.amountIn swap.assetIn prices decimals
  let usdtVolumeBuy := calculateUsdtVolume swap.amountOut swap.assetOut prices decimals
  [{ asset_id := swap.assetIn,
     block_height := blockHeight,
     usdt_price := "0",
     native_volume_sell := some (decString swap.amountIn),
     usdt_volume_sell := some usdtVolumeSell,
     native_volume_buy := some "0",
     usdt_volume_buy := some "0.000000000000" },
   { asset_id := swap.assetOut,
     block_height := blockHeight,
     usdt_price := "0",
     native_volume_buy := some (decString swap.amountOut),
     usdt_volume_buy := some usdtVolumeBuy,
     native_volume_sell := some "0",
     usdt_volume_sell := some "0.000000000000" }]

/-- `sumBigIntStrings(a, b)`. -/
def sumBigIntStrings (a b : String) : String :=
  decString (decStringToNat a + decStringToNat b)

/-- `sumDecimal128Strings(a, b)`. -/
def sumDecimal128Strings (a b : String) : String :=
  formatDec12 (dec12ToNat a + dec12ToNat b)

/-- `aggregateVolumeRows(volumeRows)`: fold rows into a `Map` keyed by
`asset_id`, summing the four volume fields, then take the values in
insertion order. -/
def aggregateVolumeRows (volumeRows : List PriceRow) : List PriceRow :=
  (volumeRows.foldl (fun aggregated row =>
    match tsGet aggregated row.asset_id with
    | some existing =>
      tsSet aggregated row.asset_id
        { existing with
          native_volume_sell := some (sumBigIntStrings
            ((existing.native_volume_sell).getD "0") ((row.native_volume_sell).getD "0")),
          usdt_volume_sell := some (sumDecimal128Strings
            ((existing.usdt_volume_sell).getD "0.000000000000")
            ((row.usdt_volume_sell).getD "0.000000000000")),
          native_volume_buy := some (sumBigIntStrings
            ((existing.native_volume_buy).getD "0") ((row.native_volume_buy).getD "0")),
          usdt_volume_buy := some (sumDecimal128Strings
            ((existing.usdt_volume_buy).getD "0.000000000000")
            ((row.usdt_volume_buy).getD "0.000000000000")) }
    | none => tsSet aggregated row.asset_id row) []).map (fun kv => kv.2)

/-- `mergePriceAndVolumeRows(priceRows, volumeRows)`. -/
def mergePriceAndVolumeRows (priceRows volumeRows : List PriceRow) : List PriceRow :=
  if volumeRows.isEmpty then priceRows
  else if priceRows.isEmpty then aggregateVolumeRows volumeRows
  else
    let aggregatedVolumes := aggregateVolumeRows volumeRows
    let volumeMap := aggregatedVolumes.foldl
      (fun m row => tsSet m row.asset_id row) ([] : List (Nat × PriceRow))
    let processed := priceRows.foldl (fun (acc : List PriceRow × List Nat) priceRow =>
      match tsGet volumeMap priceRow.asset_id with
      | some volumeRow =>
        (acc.1 ++ [{ priceRow with
          native_volume_sell := volumeRow.native_volume_sell,
          usdt_volume_sell := volumeRow.usdt_volume_sell,
          native_volume_buy := volumeRow.native_volume_buy,
          usdt_volume_buy := volumeRow.usdt_volume_buy }],
         acc.2 ++ [priceRow.asset_id])
      | none => (acc.1 ++ [priceRow], acc.2)) ([], [])
    processed.1 ++ aggregatedVolumes.filter (fun vr => vr.asset_id ∉ processed.2)

/-! ## src/util/account.ts -/

/-- `stringToU8a` on ASCII pallet-id strings. -/
def stringToU8a (s : String) : List Nat := s.data.map Char.toNat

/-- `derivePalletAccount(palletId)`: `"modl" ++ palletId ++ 20 zero bytes`.
The empty list models the thrown length error (never hit: both call sites
pass 8-byte ids). -/
def derivePalletAccount (palletId : String) : List Nat :=
  let palletIdBytes := stringToU8a palletId
  if palletIdBytes.length ≠ 8 then []
  else stringToU8a "modl" ++ palletIdBytes ++ List.replicate 20 0

/-- `setUint32(0, index, true)`: little-endian u32 bytes. -/
def u32le (n : Nat) : List Nat :=
  [n % 256, n / 256 % 256, n / 65536 % 256, n / 16777216 % 256]

/-- `deriveSubAccount(baseAccount, index)`: first 12 bytes of the base,
4-byte LE index, 16 zero bytes. -/
def deriveSubAccount (baseAccount : List Nat) (index : Nat) : List Nat :=
  if baseAccount.length ≠ 32 then []
  else baseAccount.take 12 ++ u32le index ++ List.replicate 16 0

def deriveOmnipoolAccount : List Nat := derivePalletAccount "omnipool"

def deriveStableswapPoolAccount (poolId : Nat) : List Nat :=
  deriveSubAccount (derivePalletAccount "stblpool") poolId

/-- Lower-case hex digit. -/
def hexChar (n : Nat) : Char :=
  if n < 10 then Char.ofNat (48 + n) else Char.ofNat (87 + n)

/-- `u8aToHex(bytes)`: `0x`-prefixed lower-case hex. -/
def u8aToHex (bytes : List Nat) : String :=
  "0x" ++ String.mk ((bytes.map (fun b => [hexChar (b / 16), hexChar (b % 16)])).flatten)

/-! ## src/indexer.ts: the carry-forward decision rule -/

/-- A call as seen by `detectPoolAffectingSetStorage`: `items` models
`call.args?.items`, the decoded `Vec<(Vec<u8>, Vec<u8>)>` as hex strings. -/
structure CallT where
  name : String
  items : Option (List (String × String))

/-- An event as seen by the change detector: `fromAcct`/`toAcct` model
`event.args.from` / `event.args.to` (only read for `Tokens.Transfer`). -/
structure EventT where
  name : String
  fromAcct : String
  toAcct : String

/-- Cached XYK pool entry (`compositionCache.ts`). -/
structure XYKPoolEntry where
  poolAccount : String
  assetA : Nat
  assetB : Nat

/-- Cached Stableswap pool entry (`compositionCache.ts`). -/
structure StableswapPoolEntry where
  poolId : Nat
  assets : List Nat
  initialAmplification : Nat
  finalAmplification : Nat
  initialBlock : Nat
  finalBlock : Nat
  fee : Nat

/-- TS `s.slice(a, b)` for non-negative indices. -/
def strSlice (s : String) (a b : Nat) : String :=
  String.mk ((s.data.drop a).take (b - a))

/-- The key-prefix extraction in `detectPoolAffectingSetStorage`:
`key.startsWith('0x') ? key.slice(2, 34) : key.slice(0, 32)`. -/
def keyPrefix32 (key : String) : String :=
  if key.startsWith "0x" then strSlice key 2 34 else strSlice key 0 32

/-- `POOL_STORAGE_PREFIXES`: twox128 hashes (as 32 hex chars) of the four
pool-affecting pallet names; the hash itself (`xxhashAsHex`, from
`@polkadot/util-crypto`) is an external library, kept as a parameter. -/
def poolStoragePrefixes (twox128hex : String → String) : List String :=
  ["Omnipool", "Tokens", "XYK", "Stableswap"].map twox128hex

/-- `detectPoolAffectingSetStorage(calls)`. -/
def detectPoolAffectingSetStorage (calls : List CallT) (prefixes : List String) : Bool :=
  calls.any (fun c =>
    if c.name ≠ "System.set_storage" then false
    else
      match c.items with
      | none => false
      | some items => items.any (fun kv => prefixes.any (fun p => keyPrefix32 kv.1 == p)))

/-- `PoolCompositionCache.processEvents` returned flags. -/
structure CompositionChanges where
  omnipoolChanged : Bool
  xykChanged : Bool
  stableswapChanged : Bool

/-- One event of the `processEvents` switch (the cache mutations do not
affect the returned flags). -/
def processEventsStep (acc : CompositionChanges) (e : EventT) : CompositionChanges :=
  if e.name = "Omnipool.TokenAdded" then { acc with omnipoolChanged := true }
  else if e.name = "Omnipool.TokenRemoved" then { acc with omnipoolChanged := true }
  else if e.name = "XYK.PoolCreated" then { acc with xykChanged := true }
  else if e.name = "XYK.PoolDestroyed" then { acc with xykChanged := true }
  else if e.name = "Stableswap.PoolCreated" then { acc with stableswapChanged := true }
  else acc

/-- The flag computation of `processEvents`. -/
def processEventsChanges (events : List EventT) : CompositionChanges :=
  events.foldl processEventsStep ⟨false, false, false⟩

/-- The Omnipool sovereign account hex constant (`u8aToHex(deriveOmnipoolAccount())`). -/
def omnipoolAccount : String := u8aToHex deriveOmnipoolAccount

/-- `getStableswapPoolAccount(poolId)` (memoization is observationally pure). -/
def getStableswapPoolAccount (poolId : Nat) : String :=
  u8aToHex (deriveStableswapPoolAccount poolId)

/-- The `poolAccounts` set built per block in `run`. -/
def buildPoolAccounts (xykPoolEntries : Option (List XYKPoolEntry))
    (stableswapPoolEntries : Option (List StableswapPoolEntry)) : List String :=
  [omnipoolAccount]
    ++ (match xykPoolEntries with
        | some pools => pools.map (fun p => p.poolAccount)
        | none => [])
    ++ (match stableswapPoolEntries with
        | some pools => pools.map (fun p => getStableswapPoolAccount p.poolId)
        | none => [])

/-- The transfer scan in `run`. -/
def hasPoolAffectingTransfer (events : List EventT) (poolAccounts : List String) : Bool :=
  events.any (fun e =>
    if e.name ≠ "Tokens.Transfer" then false
    else poolAccounts.contains e.fromAcct || poolAccounts.contains e.toAcct)

/-- The skip condition at the heart of `run`:
`!hasPoolAffectingTransfer && !hasSetStorageAffectingPools && !compositionChanged
&& previousPrices !== null`. -/
def isCarryForwardBlock (transfer setStorage compositionChanged : Bool)
    (previousPrices : Option PriceMap) : Bool :=
  !transfer && !setStorage && !compositionChanged && previousPrices.isSome

/-- Whether `run` performs the full state read + price computation for a
block, assembled exactly as in the processing loop. -/
def processesBlockFully (events : List EventT) (calls : List CallT)
    (xykPoolEntries : Option (List XYKPoolEntry))
    (stableswapPoolEntries : Option (List StableswapPoolEntry))
    (previousPrices : Option PriceMap) (twox128hex : String → String) : Bool :=
  let changes := processEventsChanges events
  let compositionChanged :=
    changes.omnipoolChanged || changes.xykChanged || changes.stableswapChanged
  let hasSetStorageAffectingPools :=
    detectPoolAffectingSetStorage calls (poolStoragePrefixes twox128hex)
  let poolAccounts := buildPoolAccounts xykPoolEntries stableswapPoolEntries
  let transfer := hasPoolAffectingTransfer events poolAccounts
  !(isCarryForwardBlock transfer hasSetStorageAffectingPools compositionChanged previousPrices)

/-! ## src/store/clickhouseStore.ts: dedup tokens -/

/-- The stack-safe `minMax` loop over `block_height` values (callers
guarantee non-emptiness; `(0, 0)` stands for the out-of-bounds read). -/
def minMax (heights : List Nat) : Nat × Nat :=
  match heights with
  | [] => (0, 0)
  | h :: t => t.foldl (fun acc x =>
      (if x < acc.1 then x else acc.1, if x > acc.2 then x else acc.2)) (h, h)

/-- Token of `flushPrices`: table, min block, max block, row count. -/
def pricesDedupToken (rows : List PriceRow) : String :=
  let mm := minMax (rows.map (fun r => r.block_height))
  "prices-" ++ decString mm.1 ++ "-" ++ decString mm.2 ++ "-" ++ decString rows.length

/-- Token of `flushBlocks`: table, min block, max block (no row count). -/
def blocksDedupToken (rows : List BlockRow) : String :=
  let mm := minMax (rows.map (fun r => r.block_height))
  "blocks-" ++ decString mm.1 ++ "-" ++ decString mm.2

/-- Token of `flushAssets`: table, min asset id, max asset id, row count
(ids obtained by sorting). -/
def assetsDedupToken (rows : List AssetRow) : String :=
  let assetIds := (rows.map (fun r => r.asset_id)).mergeSort (· ≤ ·)
  "assets-" ++ decString (assetIds.headD 0) ++ "-" ++ decString (assetIds.getLastD 0)
    ++ "-" ++ decString rows.length

/-- Token of `flushRuntimeUpgrades`: table, min block, max block (no row count). -/
def runtimeUpgradesDedupToken (rows : List RuntimeUpgradeRow) : String :=
  let mm := minMax (rows.map (fun r => r.block_height))
  "runtime-upgrades-" ++ decString mm.1 ++ "-" ++ decString mm.2

/-! ## Startup: checkpoint handling (`getLastProcessedBlock` + `run`) -/

/-- `getLastProcessedBlock`: the stored `last_block`, or `0` when the
checkpoint row is absent. -/
def getLastProcessedBlock (checkpointRow : Option Nat) : Nat :=
  match checkpointRow with
  | none => 0
  | some lastBlock => lastBlock

/-- The start block handed to `processor.setBlockRange` in `run`: a CLI
`--from-block` override, else the checkpoint value itself. -/
def computeStartBlock (fromBlockOption : Option Nat) (checkpointRow : Option Nat) : Nat :=
  match fromBlockOption with
  | some fromBlock => fromBlock
  | none => getLastProcessedBlock checkpointRow

/-! ## Helper lemmas for the store tokens -/

theorem minMax_foldl (t : List Nat) : ∀ mm : Nat × Nat,
    ((t.foldl (fun acc x =>
        (if x < acc.1 then x else acc.1, if x > acc.2 then x else acc.2)) mm).1 = mm.1 ∨
      (t.foldl (fun acc x =>
        (if x < acc.1 then x else acc.1, if x > acc.2 then x else acc.2)) mm).1 ∈ t) ∧
    (t.foldl (fun acc x =>
        (if x < acc.1 then x else acc.1, if x > acc.2 then x else acc.2)) mm).1 ≤ mm.1 ∧
    (∀ x ∈ t, (t.foldl (fun acc x =>
        (if x < acc.1 then x else acc.1, if x > acc.2 then x else acc.2)) mm).1 ≤ x) ∧
    ((t.foldl (fun acc x =>
        (if x < acc.1 then x else acc.1, if x > acc.2 then x else acc.2)) mm).2 = mm.2 ∨
      (t.foldl (fun acc x =>
        (if x < acc.1 then x else acc.1, if x > acc.2 then x else acc.2)) mm).2 ∈ t) ∧
    mm.2 ≤ (t.foldl (fun acc x =>
        (if x < acc.1 then x else acc.1, if x > acc.2 then x else acc.2)) mm).2 ∧
    (∀ x ∈ t, x ≤ (t.foldl (fun acc x =>
        (if x < acc.1 then x else acc.1, if x > acc.2 then x else acc.2)) mm).2) := by
  induction t with
  | nil => intro mm; simp
  | cons y ys ih =>
    intro mm
    simp only [List.foldl_cons]
    obtain ⟨ha, hb, hc, hd, he, hf⟩ :=
      ih (if y < mm.1 then y else mm.1, if y > mm.2 then y else mm.2)
    have hb1 : (if y < mm.1 then y else mm.1) ≤ mm.1 := by split <;> omega
    have hb2 : (if y < mm.1 then y else mm.1) ≤ y := by split <;> omega
    have he1 : mm.2 ≤ (if y > mm.2 then y else mm.2) := by split <;> omega
    have he2 : y ≤ (if y > mm.2 then y else mm.2) := by split <;> omega
    refine ⟨?_, by omega, ?_, ?_, by omega, ?_⟩
    · rcases ha with h | h
      · by_cases hy : y < mm.1
        · right; rw [List.mem_cons]; left; rw [h, if_pos hy]
        · left; rw [h, if_neg hy]
      · right; exact List.mem_cons_of_mem _ h
    · intro x hx
      rcases List.mem_cons.mp hx with rfl | hx
      · omega
      · exact hc x hx
    · rcases hd with h | h
      · by_cases hy : y > mm.2
        · right; rw [List.mem_cons]; left; rw [h, if_pos hy]
        · left; rw [h, if_neg hy]
      · right; exact List.mem_cons_of_mem _ h
    · intro x hx
      rcases List.mem_cons.mp hx with rfl | hx
      · omega
      · exact hf x hx

/-- On a non-empty list, `minMax` returns the true minimum and maximum. -/
theorem minMax_spec (h : Nat) (t : List Nat) :
    (minMax (h :: t)).1 ∈ h :: t ∧ (∀ x ∈ h :: t, (minMax (h :: t)).1 ≤ x) ∧
    (minMax (h :: t)).2 ∈ h :: t ∧ (∀ x ∈ h :: t, x ≤ (minMax (h :: t)).2) := by
  obtain ⟨ha, hb, hc, hd, he, hf⟩ := minMax_foldl t (h, h)
  refine ⟨?_, ?_, ?_, ?_⟩
  · rw [List.mem_cons]
    rcases ha with h1 | h1
    · left; exact h1
    · right; exact h1
  · intro x hx
    rcases List.mem_cons.mp hx with rfl | hx
    · exact hb
    · exact hc x hx
  · rw [List.mem_cons]
    rcases hd with h1 | h1
    · left; exact h1
    · right; exact h1
  · intro x hx
    rcases List.mem_cons.mp hx with rfl | hx
    · exact he
    · exact hf x hx

theorem getLastD_default_irrel (l : List Nat) (hne : l ≠ []) (d d' : Nat) :
    l.getLastD d = l.getLastD d' := by
  cases l with
  | nil => exact absurd rfl hne
  | cons x xs =>
    induction xs generalizing x with
    | nil => rfl
    | cons y ys ih => exact ih y (by simp)

theorem getLastD_mem (l : List Nat) (hne : l ≠ []) (d : Nat) : l.getLastD d ∈ l := by
  cases l with
  | nil => exact absurd rfl hne
  | cons x xs =>
    induction xs generalizing x with
    | nil => simp
    | cons y ys ih =>
      have := ih y (by simp)
      simp only [List.getLastD_cons] at *
      exact List.mem_cons_of_mem _ this

theorem pairwise_headD_le (l : List Nat)
    (hs : List.Pairwise (fun a b => a ≤ b) l) : ∀ x ∈ l, l.headD 0 ≤ x := by
  cases l with
  | nil => simp
  | cons h t =>
    intro x hx
    rcases List.mem_cons.mp hx with rfl | hx
    · simp
    · simpa using (List.pairwise_cons.mp hs).1 x hx

theorem pairwise_le_getLastD (l : List Nat)
    (hs : List.Pairwise (fun a b => a ≤ b) l) : ∀ x ∈ l, x ≤ l.getLastD 0 := by
  induction l with
  | nil => simp
  | cons h t ih =>
    intro x hx
    obtain ⟨h1, h2⟩ := List.pairwise_cons.mp hs
    rcases List.mem_cons.mp hx with rfl | hx
    · rw [List.getLastD_cons]
      cases t with
      | nil => simp
      | cons y ys =>
        have hmem := getLastD_mem (y :: ys) (by simp) x
        exact h1 _ hmem
    · rw [List.getLastD_cons]
      have hne : t ≠ [] := List.ne_nil_of_mem hx
      rw [getLastD_default_irrel t hne h 0]
      exact ih h2 x hx

/-! ## C6 -/

/-- C6: `mergePriceAndVolumeRows(priceRows, [])` is the identity on the price
rows, and `mergePriceAndVolumeRows([], volumeRows)` equals
`aggregateVolumeRows(volumeRows)`. -/
theorem mergePriceAndVolumeRows_edge_cases (priceRows volumeRows : List PriceRow) :
    mergePriceAndVolumeRows priceRows [] = priceRows ∧
    mergePriceAndVolumeRows [] volumeRows = aggregateVolumeRows volumeRows := by
  constructor
  · rfl
  · cases volumeRows with
    | nil => rfl
    | cons r t => rfl

/-! ## C9 -/

/-- C9 counterexample: with a stored checkpoint of 5 and no CLI override the
block source is told to start at 5, not at the claimed 5 + 1. -/
theorem computeStartBlock_counterexample :
    computeStartBlock none (some 5) = 5 ∧ computeStartBlock none (some 5) ≠ 5 + 1 := by
  exact ⟨rfl, by decide⟩

/-- C9 (amended): without a CLI override the start block equals the stored
checkpoint itself (not checkpoint + 1), and 0 when no checkpoint row exists;
a CLI-supplied from-block always overrides the checkpoint. -/
theorem computeStartBlock_spec (f c : Nat) :
    computeStartBlock none (some c) = c ∧
    computeStartBlock none none = 0 ∧
    (∀ cp : Option Nat, computeStartBlock (some f) cp = f) := by
  exact ⟨rfl, rfl, fun _ => rfl⟩

/-! ## C8 -/

/-- C8 counterexample: two blocks batches with the same height range but
different row counts get the SAME dedup token — the blocks token does not
encode the row count. -/
theorem blocksDedupToken_counterexample :
    blocksDedupToken [⟨5, "t", 1⟩] = blocksDedupToken [⟨5, "t", 1⟩, ⟨5, "u", 1⟩] ∧
    ([⟨5, "t", 1⟩] : List BlockRow).length ≠
      ([⟨5, "t", 1⟩, ⟨5, "u", 1⟩] : List BlockRow).length := by
  exact ⟨rfl, by decide⟩

theorem string_append_empty (s : String) : s ++ "" = s := by
  obtain ⟨l⟩ := s
  show String.mk (l ++ []) = String.mk l
  rw [List.append_nil]

theorem headD_mem_of_ne_nil (l : List Nat) (hne : l ≠ []) : l.headD 0 ∈ l := by
  cases l with
  | nil => exact absurd rfl hne
  | cons h t => simp

/-- Claim-side token shape: table name, low bound, high bound, optional
row count, joined by dashes. -/
def specDedupToken (table : String) (lo hi : Nat) (count : Option Nat) : String :=
  table ++ "-" ++ decString lo ++ "-" ++ decString hi ++
    (match count with
     | some c => "-" ++ decString c
     | none => "")

/-- C8 (amended): the prices and assets batch tokens are derived from the
table name, the true minimum and maximum (block height resp. asset id) and
the row count; the blocks and runtime-upgrades tokens omit the row count and
are derived from table name and height range only. -/
theorem dedupTokens_spec (pr : PriceRow) (prs : List PriceRow) (br : BlockRow)
    (brs : List BlockRow) (ar : AssetRow) (ars : List AssetRow) (rr : RuntimeUpgradeRow)
    (rrs : List RuntimeUpgradeRow) :
    (∃ lo hi, lo ∈ (pr :: prs).map (fun r => r.block_height) ∧
      (∀ x ∈ (pr :: prs).map (fun r => r.block_height), lo ≤ x) ∧
      hi ∈ (pr :: prs).map (fun r => r.block_height) ∧
      (∀ x ∈ (pr :: prs).map (fun r => r.block_height), x ≤ hi) ∧
      pricesDedupToken (pr :: prs) = specDedupToken "prices" lo hi (some (pr :: prs).length)) ∧
    (∃ lo hi, lo ∈ (br :: brs).map (fun r => r.block_height) ∧
      (∀ x ∈ (br :: brs).map (fun r => r.block_height), lo ≤ x) ∧
      hi ∈ (br :: brs).map (fun r => r.block_height) ∧
      (∀ x ∈ (br :: brs).map (fun r => r.block_height), x ≤ hi) ∧
      blocksDedupToken (br :: brs) = specDedupToken "blocks" lo hi none) ∧
    (∃ lo hi, lo ∈ (ar :: ars).map (fun r => r.asset_id) ∧
      (∀ x ∈ (ar :: ars).map (fun r => r.asset_id), lo ≤ x) ∧
      hi ∈ (ar :: ars).map (fun r => r.asset_id) ∧
      (∀ x ∈ (ar :: ars).map (fun r => r.asset_id), x ≤ hi) ∧
      assetsDedupToken (ar :: ars) = specDedupToken "assets" lo hi (some (ar :: ars).length)) ∧
    (∃ lo hi, lo ∈ (rr :: rrs).map (fun r => r.block_height) ∧
      (∀ x ∈ (rr :: rrs).map (fun r => r.block_height), lo ≤ x) ∧
      hi ∈ (rr :: rrs).map (fun r => r.block_height) ∧
      (∀ x ∈ (rr :: rrs).map (fun r => r.block_height), x ≤ hi) ∧
      runtimeUpgradesDedupToken (rr :: rrs) = specDedupToken "runtime-upgrades" lo hi none) := by
  refine ⟨?_, ?_, ?_, ?_⟩
  · obtain ⟨h1, h2, h3, h4⟩ :=
      minMax_spec pr.block_height (prs.map (fun r => r.block_height))
    exact ⟨_, _, h1, h2, h3, h4, by
      simp only [pricesDedupToken, specDedupToken, List.map_cons, ← String.append_assoc]
      rfl⟩
  · obtain ⟨h1, h2, h3, h4⟩ :=
      minMax_spec br.block_height (brs.map (fun r => r.block_height))
    exact ⟨_, _, h1, h2, h3, h4, by
      simp only [blocksDedupToken, specDedupToken, List.map_cons, string_append_empty,
        ← String.append_assoc]
      rfl⟩
  · have hsorted : List.Pairwise (fun a b : Nat => a ≤ b)
        (((ar :: ars).map (fun r => r.asset_id)).mergeSort (fun a b => a ≤ b)) := by
      have hp := @List.sorted_mergeSort Nat (fun a b : Nat => decide (a ≤ b))
        (fun a b c hab hbc => by simp at *; omega)
        (fun a b => by simp; omega)
        ((ar :: ars).map (fun r => r.asset_id))
      refine hp.imp ?_
      intro a b hab
      simpa using hab
    have hperm := List.mergeSort_perm ((ar :: ars).map (fun r => r.asset_id))
      (fun a b : Nat => a ≤ b)
    have hne : (((ar :: ars).map (fun r => r.asset_id)).mergeSort (fun a b => a ≤ b)) ≠ [] := by
      intro hnil
      have hl := hperm.symm.length_eq
      rw [hnil] at hl
      simp at hl
    refine ⟨(((ar :: ars).map (fun r => r.asset_id)).mergeSort (fun a b => a ≤ b)).headD 0,
      (((ar :: ars).map (fun r => r.asset_id)).mergeSort (fun a b => a ≤ b)).getLastD 0,
      ?_, ?_, ?_, ?_, ?_⟩
    · exact hperm.mem_iff.mp (headD_mem_of_ne_nil _ hne)
    · intro x hx
      exact pairwise_headD_le _ hsorted x (hperm.mem_iff.mpr hx)
    · exact hperm.mem_iff.mp (getLastD_mem _ hne 0)
    · intro x hx
      exact pairwise_le_getLastD _ hsorted x (hperm.mem_iff.mpr hx)
    · simp only [assetsDedupToken, specDedupToken, ← String.append_assoc]
      rfl
  · obtain ⟨h1, h2, h3, h4⟩ :=
      minMax_spec rr.block_height (rrs.map (fun r => r.block_height))
    exact ⟨_, _, h1, h2, h3, h4, by
      simp only [runtimeUpgradesDedupToken, specDedupToken, List.map_cons, string_append_empty,
        ← String.append_assoc]
      rfl⟩

/-! ## C7 -/

theorem replicate_foldl_add (r : Int) (m : Nat) : ∀ a : Int,
    (List.replicate m r).foldl (· + ·) a = a + m * r := by
  induction m with
  | zero => intro a; simp
  | succ m ih =>
    intro a
    simp only [List.replicate_succ, List.foldl_cons, ih]
    push_cast
    ring

theorem replicate_dprod_fixed (r nn : Int) (hr : r ≠ 0) (hn : nn ≠ 0) (m : Nat) :
    (List.replicate m r).foldl (fun dp r' => Int.tdiv (dp * (nn * r)) (r' * nn)) (nn * r)
      = nn * r := by
  induction m with
  | zero => simp
  | succ m ih =>
    simp only [List.replicate_succ, List.foldl_cons]
    have hrr : r * nn ≠ 0 := mul_ne_zero hr hn
    have hstep : Int.tdiv ((nn * r) * (nn * r)) (r * nn) = nn * r := by
      have hmul : (nn * r) * (nn * r) = (r * nn) * (nn * r) := by ring
      rw [hmul, Int.mul_tdiv_cancel_left _ hrr]
    rw [hstep, ih]

theorem calculateDLoop_balanced (n : Nat) (r : Int) (ann : Int) (fuel : Nat)
    (hrpos : 0 < r) (hNpos : 0 < (n : Int)) (hannpos : 0 < ann) :
    calculateDLoop (List.replicate n r) (n : Int) ((n : Int) * r) ann (fuel + 1)
      ((n : Int) * r) = (n : Int) * r := by
  simp only [calculateDLoop]
  rw [replicate_dprod_fixed r (n : Int) (ne_of_gt hrpos) (ne_of_gt hNpos) n]
  have hnum : (ann * ((n : Int) * r) + ((n : Int) * r) * (n : Int)) * ((n : Int) * r)
      = ((ann + (n : Int)) * ((n : Int) * r)) * ((n : Int) * r) := by ring
  have hden : (ann - 1) * ((n : Int) * r) + ((n : Int) + 1) * ((n : Int) * r)
      = (ann + (n : Int)) * ((n : Int) * r) := by ring
  have hdenne : (ann + (n : Int)) * ((n : Int) * r) ≠ 0 := by
    have h1 : 0 < ann + (n : Int) := by omega
    have h2 : 0 < (n : Int) * r := mul_pos hNpos hrpos
    exact ne_of_gt (mul_pos h1 h2)
  rw [hnum, hden, Int.mul_tdiv_cancel_left _ hdenne]
  simp

/-- C7: on a balanced reserve vector `[r, …, r]` of length `n ≥ 2` with
amplification 100, `calculateD` converges in a single Newton step to EXACTLY
`n * r`, in particular well within the claimed 1 % tolerance of `n * r`. -/
theorem calculateD_balanced (n : Nat) (r : Int) (hn : 2 ≤ n) (hr : 0 < r) :
    calculateD (List.replicate n r) 100 = (n : Int) * r ∧
    |calculateD (List.replicate n r) 100 - (n : Int) * r| * 100 ≤ (n : Int) * r := by
  have hrne : r ≠ 0 := ne_of_gt hr
  have hanyz : ¬ ((List.replicate n r).any (fun x => decide (x = 0)) = true) := by
    intro hany
    rw [List.any_eq_true] at hany
    obtain ⟨x, hx, hx0⟩ := hany
    rw [List.mem_replicate] at hx
    simp at hx0
    exact hrne (hx.2 ▸ hx0)
  have hNpos : (0 : Int) < (n : Int) := by exact_mod_cast Nat.lt_of_lt_of_le (by omega) hn
  have hd : calculateD (List.replicate n r) 100 = (n : Int) * r := by
    unfold calculateD
    rw [if_neg hanyz]
    show calculateDLoop (List.replicate n r) (((List.replicate n r).length : Nat) : Int)
      ((List.replicate n r).foldl (· + ·) 0)
      (100 * (((List.replicate n r).length : Nat) : Int) ^ (List.replicate n r).length) 64
      ((List.replicate n r).foldl (· + ·) 0) = (n : Int) * r
    rw [List.length_replicate, replicate_foldl_add r n 0, zero_add]
    have hannpos : (0 : Int) < 100 * (n : Int) ^ n :=
      mul_pos (by norm_num) (pow_pos hNpos n)
    have h64 : (64 : Nat) = 63 + 1 := rfl
    rw [h64]
    exact calculateDLoop_balanced n r (100 * (n : Int) ^ n) 63 hr hNpos hannpos
  refine ⟨hd, ?_⟩
  rw [hd]
  simp only [sub_self, abs_zero, zero_mul]
  exact le_of_lt (mul_pos hNpos hr)

/-- Witness for C7 at `n = 3`, `r = 7`. -/
theorem calculateD_balanced_witness :
    (2 ≤ 3 ∧ (0 : Int) < 7) ∧
    (calculateD (List.replicate 3 (7 : Int)) 100 = ((3 : Nat) : Int) * 7 ∧
     |calculateD (List.replicate 3 (7 : Int)) 100 - ((3 : Nat) : Int) * 7| * 100
       ≤ ((3 : Nat) : Int) * 7) :=
  ⟨⟨by omega, by decide⟩, calculateD_balanced 3 7 (by omega) (by decide)⟩

/-! ## C5 -/

theorem calculateUsdtVolume_eq (amount asset : Nat) (prices : PriceMap)
    (decimals : AssetDecimals) :
    calculateUsdtVolume amount asset prices decimals =
      (match tsGet prices asset with
       | none => "0.000000000000"
       | some p => formatDec12 ((amount * dec12ToNat p) / 10 ^ ((tsGet decimals asset).getD 12))) := by
  rcases h : tsGet prices asset with _ | p
  · unfold calculateUsdtVolume
    rw [h]
    by_cases ham : amount = 0 <;> simp [ham]
  · unfold calculateUsdtVolume
    rw [h]
    by_cases ham : amount = 0
    · subst ham
      show "0.000000000000" =
        formatDec12 ((0 * dec12ToNat p) / 10 ^ ((tsGet decimals asset).getD 12))
      rw [Nat.zero_mul, Nat.zero_div]
      rfl
    · rw [if_neg ham]
      show (if p = "" then "0.000000000000"
          else formatDec12 ((amount * dec12ToNat p) / 10 ^ ((tsGet decimals asset).getD 12)))
        = formatDec12 ((amount * dec12ToNat p) / 10 ^ ((tsGet decimals asset).getD 12))
      by_cases hp : p = ""
      · rw [if_pos hp, hp]
        have hz : dec12ToNat "" = 0 := rfl
        rw [hz, Nat.mul_zero, Nat.zero_div]
        rfl
      · rw [if_neg hp]

/-- C5: every decoded swap emits exactly two rows: a sell contribution for
`assetIn` with `native_volume_sell = amountIn` and
`usdt_volume_sell = (amountIn * p_int(in)) / 10^decimals(in)` at 12-decimal
scale (buy fields zero), and a buy contribution for `assetOut` built the same
way (sell fields zero); additionally, whenever the asset's price is absent or
parses to zero, the USDT volume is the zero string while the native amount is
still recorded. -/
theorem swapToVolumeRows_spec (swap : DecodedSwap) (blockHeight : Nat) (prices : PriceMap)
    (decimals : AssetDecimals) :
    (swapToVolumeRows swap blockHeight prices decimals = [
      { asset_id := swap.assetIn,
        block_height := blockHeight,
        usdt_price := "0",
        native_volume_sell := some (decString swap.amountIn),
        usdt_volume_sell := some (match tsGet prices swap.assetIn with
          | none => "0.000000000000"
          | some p => formatDec12 ((swap.amountIn * dec12ToNat p) /
              10 ^ ((tsGet decimals swap.assetIn).getD 12))),
        native_volume_buy := some "0",
        usdt_volume_buy := some "0.000000000000" },
      { asset_id := swap.assetOut,
        block_height := blockHeight,
        usdt_price := "0",
        native_volume_buy := some (decString swap.amountOut),
        usdt_volume_buy := some (match tsGet prices swap.assetOut with
          | none => "0.000000000000"
          | some p => formatDec12 ((swap.amountOut * dec12ToNat p) /
              10 ^ ((tsGet decimals swap.assetOut).getD 12))),
        native_volume_sell := some "0",
        usdt_volume_sell := some "0.000000000000" }]) ∧
    (∀ amount asset, (tsGet prices asset = none ∨
        (∃ p, tsGet prices asset = some p ∧ dec12ToNat p = 0)) →
      calculateUsdtVolume amount asset prices decimals = "0.000000000000") := by
  constructor
  · unfold swapToVolumeRows
    rw [calculateUsdtVolume_eq, calculateUsdtVolume_eq]
  · intro amount asset h
    rw [calculateUsdtVolume_eq]
    rcases h with h | ⟨p, hp, hp0⟩
    · rw [h]
    · rw [hp]
      show formatDec12 ((amount * dec12ToNat p) / 10 ^ ((tsGet decimals asset).getD 12))
        = "0.000000000000"
      rw [hp0, Nat.mul_zero, Nat.zero_div]
      rfl

/-- Witness for C5: the zero-volume clause applied at an asset with no price. -/
theorem swapToVolumeRows_spec_witness :
    calculateUsdtVolume 5 9 [(1, "2.000000000000")] [(1, 12)] = "0.000000000000" :=
  (swapToVolumeRows_spec ⟨1, 2, 5, 7⟩ 3 [(1, "2.000000000000")] [(1, 12)]).2 5 9 (Or.inl rfl)

/-! ## C2 -/

/-- The five pool lifecycle event names that change pool composition
(`Stableswap.LiquidityAdded` deliberately excluded). -/
def poolLifecycleEventNames : List String :=
  ["Omnipool.TokenAdded", "Omnipool.TokenRemoved", "XYK.PoolCreated", "XYK.PoolDestroyed",
   "Stableswap.PoolCreated"]

/-- The hex body of a storage key (dropping a `0x` prefix when present). -/
def hexKeyBody (key : String) : String :=
  if key.startsWith "0x" then String.mk (key.data.drop 2) else key

/-- The first 16 bytes of a hex-encoded storage key, as 32 hex characters. -/
def first16BytesHex (key : String) : String :=
  String.mk ((hexKeyBody key).data.take 32)

theorem keyPrefix32_eq_first16 (key : String) : keyPrefix32 key = first16BytesHex key := by
  unfold keyPrefix32 first16BytesHex hexKeyBody strSlice
  by_cases h : key.startsWith "0x"
  · rw [if_pos h, if_pos h]
  · rw [if_neg h, if_neg h]
    rfl

/-- The claim-side decision rule: a block must be fully processed iff a pool
lifecycle event changed pool composition, or a `System.set_storage` call
writes a key whose first 16 bytes equal the twox128 hash of one of the four
pool pallet names, or a `Tokens.Transfer` touches a known pool sovereign
account, or no previous price snapshot exists. -/
def FullProcessSpec (events : List EventT) (calls : List CallT)
    (xykPoolEntries : Option (List XYKPoolEntry))
    (stableswapPoolEntries : Option (List StableswapPoolEntry))
    (previousPrices : Option PriceMap) (twox128hex : String → String) : Prop :=
  (∃ e ∈ events, e.name ∈ poolLifecycleEventNames) ∨
  (∃ c ∈ calls, c.name = "System.set_storage" ∧ ∃ items, c.items = some items ∧
    ∃ kv ∈ items, ∃ pallet ∈ (["Omnipool", "Tokens", "XYK", "Stableswap"] : List String),
      first16BytesHex kv.1 = twox128hex pallet) ∨
  (∃ e ∈ events, e.name = "Tokens.Transfer" ∧
    (e.fromAcct ∈ buildPoolAccounts xykPoolEntries stableswapPoolEntries ∨
     e.toAcct ∈ buildPoolAccounts xykPoolEntries stableswapPoolEntries)) ∨
  previousPrices = none

theorem processEventsStep_combined (acc : CompositionChanges) (e : EventT) :
    ((processEventsStep acc e).omnipoolChanged || (processEventsStep acc e).xykChanged ||
      (processEventsStep acc e).stableswapChanged)
    = ((acc.omnipoolChanged || acc.xykChanged || acc.stableswapChanged) ||
        decide (e.name ∈ poolLifecycleEventNames)) := by
  by_cases h1 : e.name = "Omnipool.TokenAdded"
  · simp [processEventsStep, h1, poolLifecycleEventNames]
  by_cases h2 : e.name = "Omnipool.TokenRemoved"
  · simp [processEventsStep, h1, h2, poolLifecycleEventNames]
  by_cases h3 : e.name = "XYK.PoolCreated"
  · simp [processEventsStep, h1, h2, h3, poolLifecycleEventNames]
  by_cases h4 : e.name = "XYK.PoolDestroyed"
  · simp [processEventsStep, h1, h2, h3, h4, poolLifecycleEventNames]
  by_cases h5 : e.name = "Stableswap.PoolCreated"
  · simp [processEventsStep, h1, h2, h3, h4, h5, poolLifecycleEventNames]
  · simp [processEventsStep, h1, h2, h3, h4, h5, poolLifecycleEventNames]

theorem processEventsChanges_foldl_combined (events : List EventT) :
    ∀ acc : CompositionChanges,
    ((events.foldl processEventsStep acc).omnipoolChanged ||
      (events.foldl processEventsStep acc).xykChanged ||
      (events.foldl processEventsStep acc).stableswapChanged)
    = ((acc.omnipoolChanged || acc.xykChanged || acc.stableswapChanged) ||
        events.any (fun e => decide (e.name ∈ poolLifecycleEventNames))) := by
  induction events with
  | nil => intro acc; simp
  | cons e t ih =>
    intro acc
    simp only [List.foldl_cons, List.any_cons, ih, processEventsStep_combined]
    cases acc.omnipoolChanged || acc.xykChanged || acc.stableswapChanged <;>
      cases (decide (e.name ∈ poolLifecycleEventNames)) <;> simp

theorem compositionChanged_iff (events : List EventT) :
    ((processEventsChanges events).omnipoolChanged ||
      (processEventsChanges events).xykChanged ||
      (processEventsChanges events).stableswapChanged) = true ↔
    (∃ e ∈ events, e.name ∈ poolLifecycleEventNames) := by
  unfold processEventsChanges
  rw [processEventsChanges_foldl_combined]
  simp

theorem detect_body_iff (c : CallT) (prefixes : List String) :
    ((if c.name ≠ "System.set_storage" then false
      else match c.items with
        | none => false
        | some items => items.any (fun kv => prefixes.any (fun p => keyPrefix32 kv.1 == p))) = true)
    ↔ (c.name = "System.set_storage" ∧ ∃ items, c.items = some items ∧
        ∃ kv ∈ items, ∃ p ∈ prefixes, keyPrefix32 kv.1 = p) := by
  by_cases hn : c.name = "System.set_storage"
  · rw [if_neg (not_not_intro hn)]
    rcases hi : c.items with _ | items
    · simp [hn]
    · simp [hn, List.any_eq_true]
  · rw [if_pos hn]
    simp [hn]

theorem detectPoolAffectingSetStorage_iff (calls : List CallT) (twox128hex : String → String) :
    detectPoolAffectingSetStorage calls (poolStoragePrefixes twox128hex) = true ↔
    (∃ c ∈ calls, c.name = "System.set_storage" ∧ ∃ items, c.items = some items ∧
      ∃ kv ∈ items, ∃ pallet ∈ (["Omnipool", "Tokens", "XYK", "Stableswap"] : List String),
        first16BytesHex kv.1 = twox128hex pallet) := by
  unfold detectPoolAffectingSetStorage
  rw [List.any_eq_true]
  constructor
  · rintro ⟨c, hc, hb⟩
    rw [detect_body_iff] at hb
    obtain ⟨hn, items, hi, kv, hkv, p, hp, heq⟩ := hb
    unfold poolStoragePrefixes at hp
    rw [List.mem_map] at hp
    obtain ⟨pallet, hpal, rfl⟩ := hp
    exact ⟨c, hc, hn, items, hi, kv, hkv, pallet, hpal, by
      rw [← keyPrefix32_eq_first16]; exact heq⟩
  · rintro ⟨c, hc, hn, items, hi, kv, hkv, pallet, hpal, heq⟩
    refine ⟨c, hc, ?_⟩
    rw [detect_body_iff]
    refine ⟨hn, items, hi, kv, hkv, twox128hex pallet, ?_, by
      rw [keyPrefix32_eq_first16]; exact heq⟩
    unfold poolStoragePrefixes
    exact List.mem_map_of_mem _ hpal

theorem hasPoolAffectingTransfer_iff (events : List EventT) (accounts : List String) :
    hasPoolAffectingTransfer events accounts = true ↔
    (∃ e ∈ events, e.name = "Tokens.Transfer" ∧
      (e.fromAcct ∈ accounts ∨ e.toAcct ∈ accounts)) := by
  unfold hasPoolAffectingTransfer
  rw [List.any_eq_true]
  constructor
  · rintro ⟨e, he, hb⟩
    by_cases hn : e.name = "Tokens.Transfer"
    · rw [if_neg (not_not_intro hn)] at hb
      refine ⟨e, he, hn, ?_⟩
      rcases Bool.or_eq_true_iff.mp hb with h | h
      · left; exact List.mem_of_elem_eq_true h
      · right; exact List.mem_of_elem_eq_true h
    · rw [if_pos hn] at hb
      cases hb
  · rintro ⟨e, he, hn, hmem⟩
    refine ⟨e, he, ?_⟩
    rw [if_neg (not_not_intro hn)]
    rcases hmem with h | h
    · exact Bool.or_eq_true_iff.mpr (Or.inl (List.elem_eq_true_of_mem h))
    · exact Bool.or_eq_true_iff.mpr (Or.inr (List.elem_eq_true_of_mem h))

/-- C2: the block-processing loop performs the full state read and price
computation if and only if (a) a pool lifecycle event changed pool
composition, or (b) a `System.set_storage` call writes a key whose first 16
bytes equal the twox128 hash of one of Omnipool, Tokens, XYK, Stableswap, or
(c) a `Tokens.Transfer` has `from` or `to` equal to a known pool sovereign
account (Omnipool account, any cached XYK pool account, or any derived
Stableswap sub-account), or (d) no previous price snapshot exists; otherwise
the block is carry-forward. -/
theorem processesBlockFully_iff (events : List EventT) (calls : List CallT)
    (xykPoolEntries : Option (List XYKPoolEntry))
    (stableswapPoolEntries : Option (List StableswapPoolEntry))
    (previousPrices : Option PriceMap) (twox128hex : String → String) :
    processesBlockFully events calls xykPoolEntries stableswapPoolEntries previousPrices
        twox128hex = true ↔
      FullProcessSpec events calls xykPoolEntries stableswapPoolEntries previousPrices
        twox128hex := by
  have hbool : ∀ (t s c : Bool) (p : Option PriceMap),
      ((!(!t && !s && !c && p.isSome)) = true) ↔
        (t = true ∨ s = true ∨ c = true ∨ p = none) := by
    intro t s c p
    cases t <;> cases s <;> cases c <;> cases p <;> simp
  unfold processesBlockFully isCarryForwardBlock FullProcessSpec
  rw [hbool, compositionChanged_iff, detectPoolAffectingSetStorage_iff,
    hasPoolAffectingTransfer_iff]
  constructor
  · rintro (h | h | h | h)
    · exact Or.inr (Or.inr (Or.inl h))
    · exact Or.inr (Or.inl h)
    · exact Or.inl h
    · exact Or.inr (Or.inr (Or.inr h))
  · rintro (h | h | h | h)
    · exact Or.inr (Or.inr (Or.inl h))
    · exact Or.inr (Or.inl h)
    · exact Or.inl h
    · exact Or.inr (Or.inr (Or.inr h))

/-! ## Structural lemmas about the price-map folds -/

/-- Entries of an updated map come from the old map or carry the set key. -/
theorem tsSet_mem_cases {β : Type} (m : List (Nat × β)) (k : Nat) (v : β) :
    ∀ kv ∈ tsSet m k v, kv ∈ m ∨ kv.1 = k := by
  induction m with
  | nil => intro kv h; simp [tsSet] at h; simp [h]
  | cons e t ih =>
    obtain ⟨k0, v0⟩ := e
    intro kv h
    by_cases h0 : k0 = k
    · simp only [tsSet, if_pos h0] at h
      rcases List.mem_cons.mp h with rfl | h
      · right; rfl
      · left; exact List.mem_cons_of_mem _ h
    · simp only [tsSet, if_neg h0] at h
      rcases List.mem_cons.mp h with rfl | h
      · left; exact List.mem_cons_self _ _
      · rcases ih kv h with h | h
        · left; exact List.mem_cons_of_mem _ h
        · right; exact h

/-- A fold whose step either leaves the map alone or `tsSet`s the entry key
preserves key-nodup. -/
theorem tsKeys_nodup_foldl {γ : Type} (f : PriceMap → γ → PriceMap)
    (hf : ∀ p x, f p x = p ∨ ∃ k v, f p x = tsSet p k v) :
    ∀ (l : List γ) (p : PriceMap), (tsKeys p).Nodup → (tsKeys (l.foldl f p)).Nodup := by
  intro l
  induction l with
  | nil => intro p hp; exact hp
  | cons x t ih =>
    intro p hp
    rw [List.foldl_cons]
    refine ih (f p x) ?_
    rcases hf p x with h | ⟨k, v, h⟩
    · rw [h]; exact hp
    · rw [h]; exact tsKeys_nodup_set p k v hp

theorem calculateOmnipoolPricesStep_or (lrnaPrice : String) (decimals : AssetDecimals)
    (p : PriceMap) (kv : Nat × OmnipoolAssetState) :
    calculateOmnipoolPricesStep lrnaPrice decimals p kv = p ∨
    ∃ k v, calculateOmnipoolPricesStep lrnaPrice decimals p kv = tsSet p k v := by
  unfold calculateOmnipoolPricesStep
  by_cases hz : kv.2.reserve = 0 ∨ kv.2.hubReserve = 0
  · left; rw [if_pos hz]
  · rw [if_neg hz]
    rcases hd : tsGet decimals kv.1 with _ | d
    · left; rfl
    · right; exact ⟨kv.1, _, rfl⟩

theorem omnipoolMergeStep_or (u : Nat) (stLP : Option Nat) (p : PriceMap) (kv : Nat × String) :
    omnipoolMergeStep u stLP p kv = p ∨
    ∃ k v, omnipoolMergeStep u stLP p kv = tsSet p k v := by
  unfold omnipoolMergeStep
  by_cases h : kv.1 ≠ u ∧ stLP ≠ some kv.1
  · right; rw [if_pos h]; exact ⟨kv.1, kv.2, rfl⟩
  · left; rw [if_neg h]

theorem mergeNewPricesStep_or (oset : List Nat) (p : PriceMap) (kv : Nat × String) :
    mergeNewPricesStep oset p kv = p ∨
    ∃ k v, mergeNewPricesStep oset p kv = tsSet p k v := by
  unfold mergeNewPricesStep
  by_cases h : kv.1 ∈ oset
  · left; rw [if_pos h]
  · right; rw [if_neg h]; exact ⟨kv.1, kv.2, rfl⟩

theorem calculateXYKPricesStep_or (knownPrices : PriceMap) (decimals : AssetDecimals)
    (p : PriceMap) (pool : XYKPool) :
    calculateXYKPricesStep knownPrices decimals p pool = p ∨
    ∃ k v, calculateXYKPricesStep knownPrices decimals p pool = tsSet p k v := by
  unfold calculateXYKPricesStep
  by_cases hz : pool.reserveA = 0 ∨ pool.reserveB = 0
  · left; rw [if_pos hz]
  · rw [if_neg hz]
    rcases tsGet decimals pool.assetA with _ | dA <;> rcases tsGet decimals pool.assetB with _ | dB
    · left; rfl
    · left; rfl
    · left; rfl
    · rcases tsGet knownPrices pool.assetA with _ | pA <;>
        rcases tsGet knownPrices pool.assetB with _ | pB
      · left; rfl
      · right; exact ⟨pool.assetA, _, rfl⟩
      · right; exact ⟨pool.assetB, _, rfl⟩
      · left; rfl

theorem ssUnknownStep_or (pool : StableswapPool) (ref : KnownAsset) (decimals : AssetDecimals)
    (p : PriceMap) (ua : UnknownAsset) :
    ssUnknownStep pool ref decimals p ua = p ∨
    ∃ k v, ssUnknownStep pool ref decimals p ua = tsSet p k v := by
  unfold ssUnknownStep
  by_cases h : calculateSpotPrice pool ua.index ref.index decimals = 0
  · left; rw [if_pos h]
  · right; rw [if_neg h]; exact ⟨ua.assetId, _, rfl⟩

/-- Preservation of a lookup through a fold whose step never writes key `k`
with a different value: the step either leaves the map alone or sets a key
different from `k`. -/
theorem foldl_preserves_get {γ : Type} (f : PriceMap → γ → PriceMap) (k : Nat) (v : String)
    (l : List γ)
    (hf : ∀ p x, tsGet p k = some v → tsGet (f p x) k = some v) :
    ∀ p, tsGet p k = some v → tsGet (l.foldl f p) k = some v := by
  induction l with
  | nil => intro p hp; exact hp
  | cons x t ih =>
    intro p hp
    rw [List.foldl_cons]
    exact ih (f p x) (hf p x hp)

/-- A fold that never writes a key present in `entries` beyond key `a`... -/
theorem foldl_get_notin_keys {γ : Type} (f : PriceMap → γ → PriceMap)
    (key : γ → Nat)
    (hf : ∀ p x, f p x = p ∨ ∃ v, f p x = tsSet p (key x) v) :
    ∀ (l : List γ) (p : PriceMap) (a : Nat), a ∉ l.map key →
      tsGet (l.foldl f p) a = tsGet p a := by
  intro l
  induction l with
  | nil => intro p a _; rfl
  | cons x t ih =>
    intro p a ha
    simp only [List.map_cons, List.mem_cons, not_or] at ha
    rw [List.foldl_cons]
    rw [ih (f p x) a ha.2]
    rcases hf p x with h | ⟨v, h⟩
    · rw [h]
    · rw [h]
      exact tsGet_set_ne p (key x) a v ha.1

/-- Writing lemma: a fold over entries with nodup keys, whose step is
id-or-set-at-the-entry-key, stores the value of the (unique) entry `(a, x)`
when the step fires on it. -/
theorem foldl_get_write {α : Type} (f : PriceMap → (Nat × α) → PriceMap)
    (hOr : ∀ p kv, f p kv = p ∨ ∃ v, f p kv = tsSet p kv.1 v)
    (entries : List (Nat × α)) (a : Nat) (x : α) (v : String)
    (hnd : (tsKeys entries).Nodup) (hmem : (a, x) ∈ entries)
    (hfire : ∀ p, f p (a, x) = tsSet p a v) :
    ∀ p0, tsGet (entries.foldl f p0) a = some v := by
  induction entries with
  | nil => simp at hmem
  | cons e t ih =>
    intro p0
    simp only [tsKeys, List.map_cons, List.nodup_cons] at hnd
    rw [List.foldl_cons]
    rcases List.mem_cons.mp hmem with h | h
    · subst h
      rw [hfire p0]
      have hnotin : a ∉ t.map (fun kv => kv.1) := hnd.1
      rw [foldl_get_notin_keys f (fun kv => kv.1) (by
        intro p kv
        rcases hOr p kv with h1 | ⟨v1, h1⟩
        · left; exact h1
        · right; exact ⟨v1, h1⟩) t _ a hnotin]
      exact tsGet_set_self p0 a v
    · exact ih hnd.2 h (f p0 e)

/-- Keys produced by `calculateXYKPrices` are unpriced in `knownPrices`. -/
theorem calculateXYKPrices_unknown (pools : List XYKPool) (knownPrices : PriceMap)
    (decimals : AssetDecimals) :
    ∀ kv ∈ calculateXYKPrices pools knownPrices decimals, tsGet knownPrices kv.1 = none := by
  have haux : ∀ (pools : List XYKPool) (acc : PriceMap),
      (∀ kv ∈ acc, tsGet knownPrices kv.1 = none) →
      ∀ kv ∈ pools.foldl (calculateXYKPricesStep knownPrices decimals) acc,
        tsGet knownPrices kv.1 = none := by
    intro pools
    induction pools with
    | nil => intro acc hacc kv h; exact hacc kv h
    | cons pool t ih =>
      intro acc hacc kv h
      rw [List.foldl_cons] at h
      refine ih (calculateXYKPricesStep knownPrices decimals acc pool) ?_ kv h
      intro kv2 h2
      unfold calculateXYKPricesStep at h2
      by_cases hz : pool.reserveA = 0 ∨ pool.reserveB = 0
      · rw [if_pos hz] at h2; exact hacc kv2 h2
      · rw [if_neg hz] at h2
        rcases hdA : tsGet decimals pool.assetA with _ | dA <;>
          rcases hdB : tsGet decimals pool.assetB with _ | dB <;>
          rw [hdA, hdB] at h2
        · exact hacc kv2 h2
        · exact hacc kv2 h2
        · exact hacc kv2 h2
        · rcases hpA : tsGet knownPrices pool.assetA with _ | pA <;>
            rcases hpB : tsGet knownPrices pool.assetB with _ | pB <;>
            rw [hpA, hpB] at h2
          · exact hacc kv2 h2
          · rcases tsSet_mem_cases _ _ _ kv2 h2 with h3 | h3
            · exact hacc kv2 h3
            · rw [h3]; exact hpA
          · rcases tsSet_mem_cases _ _ _ kv2 h2 with h3 | h3
            · exact hacc kv2 h3
            · rw [h3]; exact hpB
          · exact hacc kv2 h2
  intro kv h
  exact haux pools [] (by simp) kv h

/-- Keys produced by `calculateStableswapPrices` are unpriced in `knownPrices`. -/
theorem calculateStableswapPrices_unknown (pools : List StableswapPool)
    (knownPrices : PriceMap) (decimals : AssetDecimals) :
    ∀ kv ∈ calculateStableswapPrices pools knownPrices decimals,
      tsGet knownPrices kv.1 = none := by
  have hua : ∀ (pool : StableswapPool) (ua : UnknownAsset),
      ua ∈ ssUnknownAssets pool knownPrices decimals → tsGet knownPrices ua.assetId = none := by
    intro pool ua h
    unfold ssUnknownAssets at h
    rw [List.mem_filterMap] at h
    obtain ⟨p, _, hp⟩ := h
    rcases hd : tsGet decimals p.2 with _ | dcm <;> rw [hd] at hp
    · cases hp
    · rcases hk : tsGet knownPrices p.2 with _ | price <;> rw [hk] at hp
      · injection hp with hp
        rw [← hp]
        exact hk
      · cases hp
  have hinner : ∀ (pool : StableswapPool) (ref : KnownAsset) (uas : List UnknownAsset)
      (acc : PriceMap),
      (∀ ua ∈ uas, ua ∈ ssUnknownAssets pool knownPrices decimals) →
      (∀ kv ∈ acc, tsGet knownPrices kv.1 = none) →
      ∀ kv ∈ uas.foldl (ssUnknownStep pool ref decimals) acc,
        tsGet knownPrices kv.1 = none := by
    intro pool ref uas
    induction uas with
    | nil => intro acc _ hacc kv h; exact hacc kv h
    | cons ua t ih =>
      intro acc hin hacc kv h
      rw [List.foldl_cons] at h
      refine ih (ssUnknownStep pool ref decimals acc ua)
        (fun x hx => hin x (List.mem_cons_of_mem _ hx)) ?_ kv h
      intro kv2 h2
      unfold ssUnknownStep at h2
      by_cases hsp : calculateSpotPrice pool ua.index ref.index decimals = 0
      · rw [if_pos hsp] at h2; exact hacc kv2 h2
      · rw [if_neg hsp] at h2
        rcases tsSet_mem_cases _ _ _ kv2 h2 with h3 | h3
        · exact hacc kv2 h3
        · rw [h3]
          exact hua pool ua (hin ua (List.mem_cons_self _ _))
  have haux : ∀ (pools : List StableswapPool) (acc : PriceMap),
      (∀ kv ∈ acc, tsGet knownPrices kv.1 = none) →
      ∀ kv ∈ pools.foldl (calculateStableswapPricesStep knownPrices decimals) acc,
        tsGet knownPrices kv.1 = none := by
    intro pools
    induction pools with
    | nil => intro acc hacc kv h; exact hacc kv h
    | cons pool t ih =>
      intro acc hacc kv h
      rw [List.foldl_cons] at h
      refine ih (calculateStableswapPricesStep knownPrices decimals acc pool) ?_ kv h
      intro kv2 h2
      unfold calculateStableswapPricesStep at h2
      split at h2
      · exact hacc kv2 h2
      · split at h2
        · exact hacc kv2 h2
        · split at h2
          · exact hacc kv2 h2
          · exact hinner pool _ (ssUnknownAssets pool knownPrices decimals) acc
              (fun x hx => hx) hacc kv2 h2
  intro kv h
  exact haux pools [] (by simp) kv h

/-- `mergeNewPrices` preserves a present binding when all new keys are
unpriced in the reference map `prices`. -/
theorem mergeNewPrices_preserves (prices : PriceMap) (newPrices : PriceMap)
    (oset : List Nat) (k : Nat) (v : String)
    (hv : tsGet prices k = some v)
    (hunk : ∀ kv ∈ newPrices, tsGet prices kv.1 = none) :
    tsGet (mergeNewPrices prices newPrices oset) k = some v := by
  unfold mergeNewPrices
  have hstep : ∀ p kv, kv ∈ newPrices → tsGet p k = some v →
      tsGet (mergeNewPricesStep oset p kv) k = some v := by
    intro p kv hkv hp
    unfold mergeNewPricesStep
    by_cases h : kv.1 ∈ oset
    · rw [if_pos h]; exact hp
    · rw [if_neg h]
      have hkne : kv.1 ≠ k := by
        intro he
        have hn := hunk kv hkv
        rw [he, hv] at hn
        cases hn
      rw [tsGet_set_ne p kv.1 k kv.2 (Ne.symm hkne)]
      exact hp
  have haux : ∀ (l : List (Nat × String)) (p : PriceMap),
      (∀ kv ∈ l, kv ∈ newPrices) → tsGet p k = some v →
      tsGet (l.foldl (mergeNewPricesStep oset) p) k = some v := by
    intro l
    induction l with
    | nil => intro p _ hp; exact hp
    | cons kv t ih =>
      intro p hin hp
      rw [List.foldl_cons]
      exact ih (mergeNewPricesStep oset p kv)
        (fun x hx => hin x (List.mem_cons_of_mem _ hx))
        (hstep p kv (hin kv (List.mem_cons_self _ _)) hp)
  exact haux newPrices prices (fun x hx => hx) hv

/-- One propagation iteration preserves every present binding. -/
theorem propagationStep_preserves (xyk : List XYKPool) (ss : List StableswapPool)
    (dec : AssetDecimals) (oset : List Nat) (prices : PriceMap) (k : Nat) (v : String)
    (h : tsGet prices k = some v) :
    tsGet (propagationStep xyk ss dec oset prices) k = some v := by
  unfold propagationStep
  have h1 : tsGet (mergeNewPrices prices (calculateXYKPrices xyk prices dec) oset) k = some v :=
    mergeNewPrices_preserves prices _ oset k v h (calculateXYKPrices_unknown xyk prices dec)
  exact mergeNewPrices_preserves _ _ oset k v h1
    (calculateStableswapPrices_unknown ss _ dec)

/-- The bounded propagation loop preserves every present binding. -/
theorem propagationLoop_preserves (xyk : List XYKPool) (ss : List StableswapPool)
    (dec : AssetDecimals) (oset : List Nat) (fuel : Nat) :
    ∀ (prices : PriceMap) (k : Nat) (v : String), tsGet prices k = some v →
      tsGet (propagationLoop xyk ss dec oset fuel prices) k = some v := by
  induction fuel with
  | zero => intro prices k v h; exact h
  | succ fuel ih =>
    intro prices k v h
    have hstep := propagationStep_preserves xyk ss dec oset prices k v h
    simp only [propagationLoop]
    by_cases hlen : (propagationStep xyk ss dec oset prices).length = prices.length
    · rw [if_pos hlen]; exact hstep
    · rw [if_neg hlen]; exact ih _ k v hstep

/-! ## C3 -/

theorem anchorTriple_prices_u (omn : List (Nat × OmnipoolAssetState))
    (ss : List StableswapPool) (dec : AssetDecimals) (u : Nat) :
    tsGet (anchorTriple omn ss dec u).2.2 u = some "1.000000000000" := by
  have hself : tsGet (tsSet ([] : PriceMap) u "1.000000000000") u = some "1.000000000000" :=
    tsGet_set_self [] u _
  rcases h1 : lrnaViaUsdt omn dec u with _ | p
  · rcases h2 : findMostLiquidStableLPToken ss omn u with _ | lpId
    · simp only [anchorTriple, h1, h2]
      exact hself
    · rcases h3 : tsGet omn lpId with _ | lpState
      · simp only [anchorTriple, h1, h2, h3]
        exact hself
      · rcases h4 : calculateLRNAPrice lpState (orDefault (tsGet dec lpId) 18) with _ | p2
        · simp only [anchorTriple, h1, h2, h3, h4]
          exact hself
        · simp only [anchorTriple, h1, h2, h3, h4]
          by_cases hlp : lpId = u
          · rw [hlp]
            exact tsGet_set_self _ u _
          · rw [tsGet_set_ne _ lpId u _ (Ne.symm hlp)]
            exact hself
  · simp only [anchorTriple, h1]
    exact hself

theorem anchorPhase_usdt (omn : List (Nat × OmnipoolAssetState)) (ss : List StableswapPool)
    (dec : AssetDecimals) (u l : Nat) (hul : u ≠ l) :
    tsGet (anchorPhase omn ss dec u l) u = some "1.000000000000" := by
  rcases ha : (anchorTriple omn ss dec u).1 with _ | lp
  · simp only [anchorPhase, ha]
    exact anchorTriple_prices_u omn ss dec u
  · simp only [anchorPhase, ha]
    have hbase : tsGet (tsSet (anchorTriple omn ss dec u).2.2 l lp) u
        = some "1.000000000000" := by
      rw [tsGet_set_ne _ l u lp hul]
      exact anchorTriple_prices_u omn ss dec u
    refine foldl_preserves_get (omnipoolMergeStep u (anchorTriple omn ss dec u).2.1) u
      "1.000000000000" _ ?_ _ hbase
    intro p kv hp
    unfold omnipoolMergeStep
    by_cases hg : kv.1 ≠ u ∧ (anchorTriple omn ss dec u).2.1 ≠ some kv.1
    · rw [if_pos hg]
      rw [tsGet_set_ne p kv.1 u kv.2 (Ne.symm hg.1)]
      exact hp
    · rw [if_neg hg]; exact hp

/-- C3: for every input, `resolvePrices` maps the USDT asset id to exactly
`"1.000000000000"`, and no later phase (LP fallback, Omnipool pricing, XYK or
Stableswap propagation) ever overwrites it. (The USDT and LRNA asset ids are
distinct, as in the production configuration 10 and 1.) -/
theorem resolvePrices_usdt_anchor (omn : List (Nat × OmnipoolAssetState))
    (xyk : List XYKPool) (ss : List StableswapPool) (dec : AssetDecimals) (u l : Nat)
    (hul : u ≠ l) :
    tsGet (resolvePrices omn xyk ss dec u l) u = some "1.000000000000" := by
  unfold resolvePrices
  exact propagationLoop_preserves xyk ss dec _ 10 _ u _ (anchorPhase_usdt omn ss dec u l hul)

/-- Witness for C3 at the production ids `usdt = 10`, `lrna = 1`. -/
theorem resolvePrices_usdt_anchor_witness :
    (10 : Nat) ≠ 1 ∧
    tsGet (resolvePrices [] [] [] [] 10 1) 10 = some "1.000000000000" :=
  ⟨by decide, resolvePrices_usdt_anchor [] [] [] [] 10 1 (by decide)⟩

/-! ## C1 -/

/-- C1 counterexample: USDT itself satisfies every precondition of the claim
(present in the Omnipool map, positive hub and token reserve, decimals
known), `calculateOmnipoolPrices` emits the claimed formula value
`"0.999999999999"` for it, but `resolvePrices` emits the anchor
`"1.000000000000"` — the parenthetical "and hence by resolvePrices for that
asset" fails at the USDT (and stable-LP) anchor. -/
theorem resolvePrices_omnipool_formula_counterexample :
    calculateLRNAPrice ⟨3000000000000, 1000000, 0, 0, 0, 0⟩ 6 = some "0.333333333333" ∧
    tsGet (calculateOmnipoolPrices [(10, ⟨3000000000000, 1000000, 0, 0, 0, 0⟩)]
      "0.333333333333" [(10, 6)]) 10
      = some (formatScaled ((3000000000000 * 10 ^ 6 * priceStrToInt "0.333333333333") /
          (1000000 * 10 ^ 12)) 12) ∧
    formatScaled ((3000000000000 * 10 ^ 6 * priceStrToInt "0.333333333333") /
        (1000000 * 10 ^ 12)) 12 = "0.999999999999" ∧
    tsGet (resolvePrices [(10, ⟨3000000000000, 1000000, 0, 0, 0, 0⟩)] [] [] [(10, 6)] 10 1) 10
      = some "1.000000000000" ∧
    ("0.999999999999" : String) ≠ "1.000000000000" := by
  refine ⟨rfl, rfl, by decide, rfl, by decide⟩

theorem calculateOmnipoolPricesStep_orSelf (lrnaPrice : String) (decimals : AssetDecimals)
    (p : PriceMap) (kv : Nat × OmnipoolAssetState) :
    calculateOmnipoolPricesStep lrnaPrice decimals p kv = p ∨
    ∃ v, calculateOmnipoolPricesStep lrnaPrice decimals p kv = tsSet p kv.1 v := by
  unfold calculateOmnipoolPricesStep
  by_cases hz : kv.2.reserve = 0 ∨ kv.2.hubReserve = 0
  · left; rw [if_pos hz]
  · rw [if_neg hz]
    rcases tsGet decimals kv.1 with _ | d
    · left; rfl
    · right; exact ⟨_, rfl⟩

theorem omnipoolMergeStep_orSelf (u : Nat) (stLP : Option Nat) (p : PriceMap)
    (kv : Nat × String) :
    omnipoolMergeStep u stLP p kv = p ∨
    ∃ v, omnipoolMergeStep u stLP p kv = tsSet p kv.1 v := by
  unfold omnipoolMergeStep
  by_cases h : kv.1 ≠ u ∧ stLP ≠ some kv.1
  · right; rw [if_pos h]; exact ⟨kv.2, rfl⟩
  · left; rw [if_neg h]

/-- C1 (amended): for every Omnipool asset `a` with positive hub and token
reserve and known decimals, `calculateOmnipoolPrices` emits exactly
`(hubReserve * 10^decimals[a] * lrnaPriceInt) / (reserve * 10^12)` formatted
as a 12-fractional-digit decimal string; `resolvePrices` emits that same
value for `a` provided `a` is not the USDT anchor and the LRNA price is
derived from USDT's own Omnipool state (so no stable-LP anchor exists). -/
theorem calculateOmnipoolPrices_formula (omn : List (Nat × OmnipoolAssetState))
    (xyk : List XYKPool) (ss : List StableswapPool) (dec : AssetDecimals)
    (u l a : Nat) (st ust : OmnipoolAssetState) (d : Nat) (lrnaStr : String)
    (hnd : (tsKeys omn).Nodup)
    (hst : tsGet omn a = some st) (hres : st.reserve ≠ 0) (hhub : st.hubReserve ≠ 0)
    (hdec : tsGet dec a = some d)
    (hu : tsGet omn u = some ust)
    (hlrna : calculateLRNAPrice ust (orDefault (tsGet dec u) 6) = some lrnaStr)
    (hau : a ≠ u) :
    tsGet (calculateOmnipoolPrices omn lrnaStr dec) a
      = some (formatScaled ((st.hubReserve * 10 ^ d * priceStrToInt lrnaStr) /
          (st.reserve * 10 ^ 12)) 12) ∧
    tsGet (resolvePrices omn xyk ss dec u l) a
      = some (formatScaled ((st.hubReserve * 10 ^ d * priceStrToInt lrnaStr) /
          (st.reserve * 10 ^ 12)) 12) := by
  set F : String := formatScaled ((st.hubReserve * 10 ^ d * priceStrToInt lrnaStr) /
      (st.reserve * 10 ^ 12)) 12 with hF
  have hfireOmni : ∀ p, calculateOmnipoolPricesStep lrnaStr dec p (a, st) = tsSet p a F := by
    intro p
    unfold calculateOmnipoolPricesStep
    rw [if_neg (by
      intro h
      rcases h with h | h
      · exact hres h
      · exact hhub h)]
    show (match tsGet dec a with
      | none => p
      | some assetDecimals =>
        tsSet p a (formatScaled ((st.hubReserve * 10 ^ assetDecimals * priceStrToInt lrnaStr) /
          (st.reserve * 10 ^ 12)) 12)) = tsSet p a F
    rw [hdec]
  have hpart1 : tsGet (calculateOmnipoolPrices omn lrnaStr dec) a = some F := by
    unfold calculateOmnipoolPrices
    exact foldl_get_write (calculateOmnipoolPricesStep lrnaStr dec)
      (calculateOmnipoolPricesStep_orSelf lrnaStr dec) omn a st F hnd
      (tsGet_mem omn a st hst) hfireOmni []
  refine ⟨hpart1, ?_⟩
  have hlv : lrnaViaUsdt omn dec u = some lrnaStr := by
    unfold lrnaViaUsdt
    rw [hu]
    exact hlrna
  have hat : anchorTriple omn ss dec u
      = (some lrnaStr, none, tsSet [] u "1.000000000000") := by
    unfold anchorTriple
    rw [hlv]
  have hanchor : tsGet (anchorPhase omn ss dec u l) a = some F := by
    unfold anchorPhase
    rw [hat]
    have hndp : (tsKeys (calculateOmnipoolPrices omn lrnaStr dec)).Nodup := by
      unfold calculateOmnipoolPrices
      exact tsKeys_nodup_foldl (calculateOmnipoolPricesStep lrnaStr dec)
        (calculateOmnipoolPricesStep_or lrnaStr dec) omn [] (by simp [tsKeys])
    have hmemF : (a, F) ∈ calculateOmnipoolPrices omn lrnaStr dec :=
      tsGet_mem _ a F hpart1
    have hfireMerge : ∀ p, omnipoolMergeStep u none p (a, F) = tsSet p a F := by
      intro p
      unfold omnipoolMergeStep
      rw [if_pos ⟨hau, by simp⟩]
    exact foldl_get_write (omnipoolMergeStep u none) (omnipoolMergeStep_orSelf u none)
      (calculateOmnipoolPrices omn lrnaStr dec) a F F hndp hmemF hfireMerge _
  unfold resolvePrices
  exact propagationLoop_preserves xyk ss dec _ 10 _ a F hanchor

/-- Witness for C1 (amended) at a two-asset Omnipool: USDT (id 10, 6 dec)
with balanced reserves and HDX-like asset 5 (12 dec). -/
theorem calculateOmnipoolPrices_formula_witness :
    tsGet (calculateOmnipoolPrices
        [(10, ⟨1000000000000, 1000000, 0, 0, 0, 0⟩),
         (5, ⟨50000000000000, 100000000000000000, 0, 0, 0, 0⟩)] "1.000000000000"
        [(10, 6), (5, 12)]) 5
      = some (formatScaled ((50000000000000 * 10 ^ 12 * priceStrToInt "1.000000000000") /
          (100000000000000000 * 10 ^ 12)) 12) ∧
    tsGet (resolvePrices
        [(10, ⟨1000000000000, 1000000, 0, 0, 0, 0⟩),
         (5, ⟨50000000000000, 100000000000000000, 0, 0, 0, 0⟩)] [] [] [(10, 6), (5, 12)] 10 1) 5
      = some (formatScaled ((50000000000000 * 10 ^ 12 * priceStrToInt "1.000000000000") /
          (100000000000000000 * 10 ^ 12)) 12) :=
  calculateOmnipoolPrices_formula
    [(10, ⟨1000000000000, 1000000, 0, 0, 0, 0⟩),
     (5, ⟨50000000000000, 100000000000000000, 0, 0, 0, 0⟩)] [] []
    [(10, 6), (5, 12)] 10 1 5
    ⟨50000000000000, 100000000000000000, 0, 0, 0, 0⟩
    ⟨1000000000000, 1000000, 0, 0, 0, 0⟩ 12 "1.000000000000"
    (by decide) rfl (by decide) (by decide) rfl rfl rfl (by decide)

/-! ## C4 -/

/-- C4 counterexample: permuting the XYK pool list changes the resulting
price of asset 7 (two pools derive different prices for the same asset and
the last write wins), although asset 7 is not fixed by Omnipool precedence
(the Omnipool phase prices nothing here). -/
theorem resolvePrices_permutation_counterexample :
    ([⟨10, 7, 2, 1⟩, ⟨10, 7, 3, 1⟩] : List XYKPool).Perm [⟨10, 7, 3, 1⟩, ⟨10, 7, 2, 1⟩] ∧
    tsGet (resolvePrices [] [⟨10, 7, 2, 1⟩, ⟨10, 7, 3, 1⟩] [] [(10, 12), (7, 12)] 10 1) 7
      = some "3.000000000000" ∧
    tsGet (resolvePrices [] [⟨10, 7, 3, 1⟩, ⟨10, 7, 2, 1⟩] [] [(10, 12), (7, 12)] 10 1) 7
      = some "2.000000000000" ∧
    calculateOmnipoolPrices [] "1.000000000000" [(10, 12), (7, 12)] = [] ∧
    ("3.000000000000" : String) ≠ "2.000000000000" := by
  refine ⟨by decide, rfl, rfl, rfl, by decide⟩

theorem calculateLRNAPrice_isSome (st : OmnipoolAssetState) (d : Nat)
    (h : st.hubReserve ≠ 0) : ∃ p, calculateLRNAPrice st d = some p := by
  unfold calculateLRNAPrice bigintDivide
  rw [if_neg h, if_neg (mul_ne_zero h (pow_ne_zero d (by norm_num)))]
  exact ⟨_, rfl⟩

/-- When the LRNA price is derived from USDT's own state, the anchor phase
does not depend on the Stableswap pool list. -/
theorem anchorPhase_ss_irrel (omn : List (Nat × OmnipoolAssetState))
    (ss ss' : List StableswapPool) (dec : AssetDecimals) (u l : Nat) (p : String)
    (h : lrnaViaUsdt omn dec u = some p) :
    anchorPhase omn ss dec u l = anchorPhase omn ss' dec u l := by
  have h1 : anchorTriple omn ss dec u = (some p, none, tsSet [] u "1.000000000000") := by
    unfold anchorTriple
    rw [h]
  have h2 : anchorTriple omn ss' dec u = (some p, none, tsSet [] u "1.000000000000") := by
    unfold anchorTriple
    rw [h]
  unfold anchorPhase
  rw [h1, h2]

theorem tsGet_append_of_none {β : Type} (m e : List (Nat × β)) (k : Nat)
    (hm : tsGet m k = none) : tsGet (m ++ e) k = tsGet e k := by
  induction m with
  | nil => rfl
  | cons hd t ih =>
    obtain ⟨k0, v0⟩ := hd
    by_cases h0 : k0 = k
    · simp [tsGet, h0] at hm
    · simp only [tsGet, if_neg h0] at hm
      simp only [List.cons_append, tsGet, if_neg h0]
      exact ih hm

/-- Merging freshly derived prices (whose keys are unpriced in the base map
and nodup) only appends entries. -/
theorem mergeNewPrices_extends (oset : List Nat) :
    ∀ (newP : List (Nat × String)) (acc : PriceMap),
      (∀ kv ∈ newP, tsGet acc kv.1 = none) → (tsKeys newP).Nodup →
      ∃ extra, newP.foldl (mergeNewPricesStep oset) acc = acc ++ extra := by
  intro newP
  induction newP with
  | nil => intro acc _ _; exact ⟨[], by simp⟩
  | cons kv t ih =>
    intro acc hacc hnd
    simp only [tsKeys, List.map_cons, List.nodup_cons] at hnd
    rw [List.foldl_cons]
    by_cases h : kv.1 ∈ oset
    · have hstep : mergeNewPricesStep oset acc kv = acc := by
        unfold mergeNewPricesStep
        rw [if_pos h]
      rw [hstep]
      exact ih acc (fun x hx => hacc x (List.mem_cons_of_mem _ hx)) hnd.2
    · have hstep : mergeNewPricesStep oset acc kv = acc ++ [(kv.1, kv.2)] := by
        unfold mergeNewPricesStep
        rw [if_neg h]
        exact tsSet_absent acc kv.1 kv.2 (hacc kv (List.mem_cons_self _ _))
      rw [hstep]
      obtain ⟨extra, he⟩ := ih (acc ++ [(kv.1, kv.2)]) (by
        intro kv2 hkv2
        rw [tsGet_append_of_none _ _ _ (hacc kv2 (List.mem_cons_of_mem _ hkv2))]
        have hne : kv.1 ≠ kv2.1 := by
          intro heq
          exact hnd.1 (heq ▸ List.mem_map_of_mem (fun x => x.1) hkv2)
        simp [tsGet, hne]) hnd.2
      rw [he, List.append_assoc]
      exact ⟨_, rfl⟩

/-- A fold whose step preserves key-nodup keeps it through the whole list. -/
theorem tsKeys_nodup_foldl_pres {γ : Type} (f : PriceMap → γ → PriceMap)
    (hf : ∀ p x, (tsKeys p).Nodup → (tsKeys (f p x)).Nodup) :
    ∀ (l : List γ) (p : PriceMap), (tsKeys p).Nodup → (tsKeys (l.foldl f p)).Nodup := by
  intro l
  induction l with
  | nil => intro p hp; exact hp
  | cons x t ih =>
    intro p hp
    rw [List.foldl_cons]
    exact ih (f p x) (hf p x hp)

theorem calculateXYKPrices_keys_nodup (pools : List XYKPool) (kp : PriceMap)
    (dec : AssetDecimals) : (tsKeys (calculateXYKPrices pools kp dec)).Nodup := by
  unfold calculateXYKPrices
  exact tsKeys_nodup_foldl (calculateXYKPricesStep kp dec)
    (calculateXYKPricesStep_or kp dec) pools [] (by simp [tsKeys])

theorem calculateStableswapPrices_keys_nodup (pools : List StableswapPool) (kp : PriceMap)
    (dec : AssetDecimals) : (tsKeys (calculateStableswapPrices pools kp dec)).Nodup := by
  unfold calculateStableswapPrices
  refine tsKeys_nodup_foldl_pres (calculateStableswapPricesStep kp dec) ?_ pools []
    (by simp [tsKeys])
  intro p pool hp
  unfold calculateStableswapPricesStep
  split
  · exact hp
  split
  · exact hp
  split
  · exact hp
  · refine tsKeys_nodup_foldl (ssUnknownStep pool _ dec) ?_ _ p hp
    intro p2 ua
    rcases ssUnknownStep_or pool _ dec p2 ua with h | ⟨k, v, h⟩
    · left; exact h
    · right; exact ⟨k, v, h⟩

/-- One propagation iteration only appends entries to the price map. -/
theorem propagationStep_extends (xyk : List XYKPool) (ss : List StableswapPool)
    (dec : AssetDecimals) (oset : List Nat) (prices : PriceMap) :
    ∃ extra, propagationStep xyk ss dec oset prices = prices ++ extra := by
  unfold propagationStep mergeNewPrices
  obtain ⟨e1, h1⟩ := mergeNewPrices_extends oset (calculateXYKPrices xyk prices dec) prices
    (calculateXYKPrices_unknown xyk prices dec) (calculateXYKPrices_keys_nodup xyk prices dec)
  rw [h1]
  obtain ⟨e2, h2⟩ := mergeNewPrices_extends oset
    (calculateStableswapPrices ss (prices ++ e1) dec) (prices ++ e1)
    (calculateStableswapPrices_unknown ss (prices ++ e1) dec)
    (calculateStableswapPrices_keys_nodup ss (prices ++ e1) dec)
  rw [h2, List.append_assoc]
  exact ⟨_, rfl⟩

/-- If one propagation iteration adds no new price, the loop is at a
fixpoint and returns immediately, whatever fuel remains. -/
theorem propagationLoop_stable (xyk : List XYKPool) (ss : List StableswapPool)
    (dec : AssetDecimals) (oset : List Nat) (prices : PriceMap) (fuel : Nat)
    (hlen : (propagationStep xyk ss dec oset prices).length = prices.length) :
    propagationLoop xyk ss dec oset (fuel + 1) prices = prices := by
  obtain ⟨extra, he⟩ := propagationStep_extends xyk ss dec oset prices
  have hext : extra = [] := by
    have hl := congrArg List.length he
    rw [hlen, List.length_append] at hl
    exact List.eq_nil_of_length_eq_zero (by omega)
  simp only [propagationLoop]
  rw [if_pos hlen, he, hext, List.append_nil]

/-- C4 (amended): the propagation fixpoint runs at most 10 iterations by
construction and stops as soon as an iteration adds no price (fixpoint
conjunct); and, when the LRNA price is derived from USDT's own Omnipool
state, every price fixed by the anchor/Omnipool phase is invariant under
permutations of both pool lists. The counterexample shows values of
propagation-derived assets can depend on pool order, so full-map
determinism does not hold. -/
theorem resolvePrices_bounded_anchor_invariant (omn : List (Nat × OmnipoolAssetState))
    (xyk xyk' : List XYKPool) (ss ss' : List StableswapPool) (dec : AssetDecimals)
    (u l : Nat) (ust : OmnipoolAssetState)
    (hu : tsGet omn u = some ust) (hhub : ust.hubReserve ≠ 0)
    (_hx : xyk.Perm xyk') (_hs : ss.Perm ss') (k : Nat) (v : String)
    (hk : tsGet (anchorPhase omn ss dec u l) k = some v) :
    tsGet (resolvePrices omn xyk ss dec u l) k = some v ∧
    tsGet (resolvePrices omn xyk' ss' dec u l) k = some v ∧
    (∀ (oset : List Nat) (prices : PriceMap) (fuel : Nat),
      (propagationStep xyk ss dec oset prices).length = prices.length →
      propagationLoop xyk ss dec oset (fuel + 1) prices = prices) := by
  have hlv : ∃ p, lrnaViaUsdt omn dec u = some p := by
    unfold lrnaViaUsdt
    rw [hu]
    exact calculateLRNAPrice_isSome ust _ hhub
  obtain ⟨p, hp⟩ := hlv
  refine ⟨?_, ?_, ?_⟩
  · unfold resolvePrices
    exact propagationLoop_preserves xyk ss dec _ 10 _ k v hk
  · unfold resolvePrices
    rw [← anchorPhase_ss_irrel omn ss ss' dec u l p hp]
    exact propagationLoop_preserves xyk' ss' dec _ 10 _ k v hk
  · intro oset prices fuel hlen
    exact propagationLoop_stable xyk ss dec oset prices fuel hlen

/-- Witness for C4 (amended) at a one-asset Omnipool holding USDT. -/
theorem resolvePrices_bounded_anchor_invariant_witness :
    tsGet (resolvePrices [(10, ⟨1000000000000, 1000000, 0, 0, 0, 0⟩)] [] [] [(10, 6)] 10 1) 10
      = some "1.000000000000" ∧
    tsGet (resolvePrices [(10, ⟨1000000000000, 1000000, 0, 0, 0, 0⟩)] [] [] [(10, 6)] 10 1) 10
      = some "1.000000000000" ∧
    (∀ (oset : List Nat) (prices : PriceMap) (fuel : Nat),
      (propagationStep [] [] [(10, 6)] oset prices).length = prices.length →
      propagationLoop [] [] [(10, 6)] oset (fuel + 1) prices = prices) :=
  resolvePrices_bounded_anchor_invariant [(10, ⟨1000000000000, 1000000, 0, 0, 0, 0⟩)]
    [] [] [] [] [(10, 6)] 10 1 ⟨1000000000000, 1000000, 0, 0, 0, 0⟩ rfl (by decide)
    (List.Perm.refl _) (List.Perm.refl _) 10 "1.000000000000" rfl

/-! ## C10 -/

/-- Parsed value of a native-volume field (`?? '0'` default, bigint string). -/
def natVolVal (o : Option String) : Nat := decStringToNat (o.getD "0")

/-- Parsed value of a USDT-volume field (`?? '0.000000000000'` default,
12-decimal string read at scale `10^12`). -/
def usdtVolVal (o : Option String) : Nat := dec12ToNat (o.getD "0.000000000000")

/-- The loop body of `aggregateVolumeRows`, named for induction. -/
def aggVolStep (aggregated : List (Nat × PriceRow)) (row : PriceRow) :
    List (Nat × PriceRow) :=
  match tsGet aggregated row.asset_id with
  | some existing =>
    tsSet aggregated row.asset_id
      { existing with
        native_volume_sell := some (sumBigIntStrings
          ((existing.native_volume_sell).getD "0") ((row.native_volume_sell).getD "0")),
        usdt_volume_sell := some (sumDecimal128Strings
          ((existing.usdt_volume_sell).getD "0.000000000000")
          ((row.usdt_volume_sell).getD "0.000000000000")),
        native_volume_buy := some (sumBigIntStrings
          ((existing.native_volume_buy).getD "0") ((row.native_volume_buy).getD "0")),
        usdt_volume_buy := some (sumDecimal128Strings
          ((existing.usdt_volume_buy).getD "0.000000000000")
          ((row.usdt_volume_buy).getD "0.000000000000")) }
  | none => tsSet aggregated row.asset_id row

theorem aggregateVolumeRows_eq (volumeRows : List PriceRow) :
    aggregateVolumeRows volumeRows
      = (volumeRows.foldl aggVolStep []).map (fun kv => kv.2) := rfl

theorem natVolVal_sum (a b : Option String) :
    natVolVal (some (sumBigIntStrings (a.getD "0") (b.getD "0")))
      = natVolVal a + natVolVal b := by
  show decStringToNat (sumBigIntStrings (a.getD "0") (b.getD "0")) = _
  unfold sumBigIntStrings
  rw [decStringToNat_decString]
  rfl

theorem usdtVolVal_sum (a b : Option String) :
    usdtVolVal (some (sumDecimal128Strings (a.getD "0.000000000000")
        (b.getD "0.000000000000")))
      = usdtVolVal a + usdtVolVal b := by
  show dec12ToNat (sumDecimal128Strings (a.getD "0.000000000000")
    (b.getD "0.000000000000")) = _
  unfold sumDecimal128Strings
  rw [dec12ToNat_formatDec12]
  rfl

/-- The accumulator invariant: a stored row carries its own key as asset id
and its four volume fields sum the corresponding fields over the processed
rows with that asset id. -/
@[reducible] def rowSums (processed : List PriceRow) (k : Nat) (r : PriceRow) : Prop :=
  r.asset_id = k ∧
  natVolVal r.native_volume_sell
    = ((processed.filter (fun x => x.asset_id = k)).map
        (fun x => natVolVal x.native_volume_sell)).sum ∧
  usdtVolVal r.usdt_volume_sell
    = ((processed.filter (fun x => x.asset_id = k)).map
        (fun x => usdtVolVal x.usdt_volume_sell)).sum ∧
  natVolVal r.native_volume_buy
    = ((processed.filter (fun x => x.asset_id = k)).map
        (fun x => natVolVal x.native_volume_buy)).sum ∧
  usdtVolVal r.usdt_volume_buy
    = ((processed.filter (fun x => x.asset_id = k)).map
        (fun x => usdtVolVal x.usdt_volume_buy)).sum

theorem sum_map_filter_append_ne (processed : List PriceRow) (row : PriceRow) (a : Nat)
    (h : ¬ (row.asset_id = a)) (f : PriceRow → Nat) :
    (((processed ++ [row]).filter (fun x => x.asset_id = a)).map f).sum
      = ((processed.filter (fun x => x.asset_id = a)).map f).sum := by
  rw [List.filter_append]
  have hr : ([row].filter (fun x => x.asset_id = a)) = [] := by
    simp [List.filter_cons, h]
  rw [hr, List.append_nil]

theorem sum_map_filter_append_self (processed : List PriceRow) (row : PriceRow)
    (f : PriceRow → Nat) :
    (((processed ++ [row]).filter (fun x => x.asset_id = row.asset_id)).map f).sum
      = ((processed.filter (fun x => x.asset_id = row.asset_id)).map f).sum + f row := by
  rw [List.filter_append]
  have hr : ([row].filter (fun x => x.asset_id = row.asset_id)) = [row] := by
    simp
  rw [hr, List.map_append, List.sum_append]
  simp

theorem rowSums_extend_ne (processed : List PriceRow) (row : PriceRow) (k : Nat)
    (v : PriceRow) (h : rowSums processed k v) (hne : ¬ (row.asset_id = k)) :
    rowSums (processed ++ [row]) k v := by
  obtain ⟨e0, e1, e2, e3, e4⟩ := h
  refine ⟨e0, ?_, ?_, ?_, ?_⟩ <;> rw [sum_map_filter_append_ne _ _ _ hne]
  exacts [e1, e2, e3, e4]

theorem rowSums_first (processed : List PriceRow) (row : PriceRow)
    (h : row.asset_id ∉ processed.map (fun x => x.asset_id)) :
    rowSums (processed ++ [row]) row.asset_id row := by
  have hnil : processed.filter (fun x => x.asset_id = row.asset_id) = [] := by
    refine List.filter_eq_nil_iff.mpr ?_
    intro x hx
    simp only [decide_eq_true_eq]
    intro he
    exact h (he ▸ List.mem_map_of_mem (fun x => x.asset_id) hx)
  refine ⟨rfl, ?_, ?_, ?_, ?_⟩ <;> rw [sum_map_filter_append_self, hnil] <;> simp

theorem rowSums_merge (processed : List PriceRow) (row existing : PriceRow)
    (h : rowSums processed row.asset_id existing) :
    rowSums (processed ++ [row]) row.asset_id
      { existing with
        native_volume_sell := some (sumBigIntStrings
          ((existing.native_volume_sell).getD "0") ((row.native_volume_sell).getD "0")),
        usdt_volume_sell := some (sumDecimal128Strings
          ((existing.usdt_volume_sell).getD "0.000000000000")
          ((row.usdt_volume_sell).getD "0.000000000000")),
        native_volume_buy := some (sumBigIntStrings
          ((existing.native_volume_buy).getD "0") ((row.native_volume_buy).getD "0")),
        usdt_volume_buy := some (sumDecimal128Strings
          ((existing.usdt_volume_buy).getD "0.000000000000")
          ((row.usdt_volume_buy).getD "0.000000000000")) } := by
  obtain ⟨e0, e1, e2, e3, e4⟩ := h
  refine ⟨e0, ?_, ?_, ?_, ?_⟩
  · show natVolVal (some (sumBigIntStrings
      ((existing.native_volume_sell).getD "0") ((row.native_volume_sell).getD "0"))) = _
    rw [natVolVal_sum, sum_map_filter_append_self, e1]
  · show usdtVolVal (some (sumDecimal128Strings
      ((existing.usdt_volume_sell).getD "0.000000000000")
      ((row.usdt_volume_sell).getD "0.000000000000"))) = _
    rw [usdtVolVal_sum, sum_map_filter_append_self, e2]
  · show natVolVal (some (sumBigIntStrings
      ((existing.native_volume_buy).getD "0") ((row.native_volume_buy).getD "0"))) = _
    rw [natVolVal_sum, sum_map_filter_append_self, e3]
  · show usdtVolVal (some (sumDecimal128Strings
      ((existing.usdt_volume_buy).getD "0.000000000000")
      ((row.usdt_volume_buy).getD "0.000000000000"))) = _
    rw [usdtVolVal_sum, sum_map_filter_append_self, e4]

theorem mem_tsSet_of_nodup {β : Type} :
    ∀ (m : List (Nat × β)) (k : Nat) (v : β), (tsKeys m).Nodup →
      ∀ kv ∈ tsSet m k v, kv = (k, v) ∨ (kv ∈ m ∧ kv.1 ≠ k) := by
  intro m k v
  induction m with
  | nil =>
    intro _ kv hkv
    simp only [tsSet, List.mem_singleton] at hkv
    exact Or.inl hkv
  | cons e t ih =>
    intro hnd kv hkv
    obtain ⟨k0, v0⟩ := e
    simp only [tsKeys, List.map_cons, List.nodup_cons] at hnd
    by_cases h0 : k0 = k
    · simp only [tsSet, if_pos h0] at hkv
      rcases List.mem_cons.mp hkv with h1 | h1
      · exact Or.inl h1
      · refine Or.inr ⟨List.mem_cons_of_mem _ h1, ?_⟩
        intro he
        apply hnd.1
        rw [h0, ← he]
        exact List.mem_map_of_mem (fun x => x.1) h1
    · simp only [tsSet, if_neg h0] at hkv
      rcases List.mem_cons.mp hkv with h1 | h1
      · subst h1
        exact Or.inr ⟨List.mem_cons_self _ _, h0⟩
      · rcases ih hnd.2 kv h1 with h2 | ⟨h2, h3⟩
        · exact Or.inl h2
        · exact Or.inr ⟨List.mem_cons_of_mem _ h2, h3⟩

theorem aggVolStep_invariant (m : List (Nat × PriceRow)) (row : PriceRow)
    (processed : List PriceRow)
    (h1 : (tsKeys m).Nodup)
    (h2 : ∀ a, a ∈ tsKeys m ↔ a ∈ processed.map (fun x => x.asset_id))
    (h3 : ∀ kv ∈ m, rowSums processed kv.1 kv.2) :
    (tsKeys (aggVolStep m row)).Nodup ∧
    (∀ a, a ∈ tsKeys (aggVolStep m row) ↔
      a ∈ (processed ++ [row]).map (fun x => x.asset_id)) ∧
    (∀ kv ∈ aggVolStep m row, rowSums (processed ++ [row]) kv.1 kv.2) := by
  have e2 : (processed ++ [row]).map (fun x => x.asset_id)
      = processed.map (fun x => x.asset_id) ++ [row.asset_id] := by simp
  rcases h : tsGet m row.asset_id with _ | existing
  · have hstep : aggVolStep m row = tsSet m row.asset_id row := by
      unfold aggVolStep
      rw [h]
    have hnotin : row.asset_id ∉ tsKeys m := (tsGet_eq_none_iff m row.asset_id).mp h
    have hnotp : row.asset_id ∉ processed.map (fun x => x.asset_id) :=
      fun hc => hnotin ((h2 _).mpr hc)
    have habs : tsSet m row.asset_id row = m ++ [(row.asset_id, row)] :=
      tsSet_absent m _ row h
    rw [hstep]
    refine ⟨tsKeys_nodup_set m _ row h1, ?_, ?_⟩
    · intro a
      have e1 : tsKeys (m ++ [(row.asset_id, row)]) = tsKeys m ++ [row.asset_id] := by
        simp [tsKeys]
      rw [habs, e1, e2, List.mem_append, List.mem_append, h2 a]
    · intro kv hkv
      rw [habs] at hkv
      obtain ⟨k, v⟩ := kv
      rcases List.mem_append.mp hkv with hm | hnew
      · have hs' : rowSums processed k v := h3 (k, v) hm
        have hk1 : k ∈ tsKeys m := List.mem_map_of_mem (fun x => x.1) hm
        show rowSums (processed ++ [row]) k v
        refine rowSums_extend_ne processed row k v hs' ?_
        intro he
        apply hnotin
        rw [he]
        exact hk1
      · simp only [List.mem_singleton] at hnew
        injection hnew with hk hv
        subst hk
        show rowSums (processed ++ [row]) row.asset_id v
        rw [hv]
        exact rowSums_first processed row hnotp
  · have hsome : (tsGet m row.asset_id).isSome = true := by rw [h]; rfl
    have hs : rowSums processed row.asset_id existing :=
      h3 (row.asset_id, existing) (tsGet_mem m row.asset_id existing h)
    have hstep : aggVolStep m row = tsSet m row.asset_id
        { existing with
          native_volume_sell := some (sumBigIntStrings
            ((existing.native_volume_sell).getD "0") ((row.native_volume_sell).getD "0")),
          usdt_volume_sell := some (sumDecimal128Strings
            ((existing.usdt_volume_sell).getD "0.000000000000")
            ((row.usdt_volume_sell).getD "0.000000000000")),
          native_volume_buy := some (sumBigIntStrings
            ((existing.native_volume_buy).getD "0") ((row.native_volume_buy).getD "0")),
          usdt_volume_buy := some (sumDecimal128Strings
            ((existing.usdt_volume_buy).getD "0.000000000000")
            ((row.usdt_volume_buy).getD "0.000000000000")) } := by
      unfold aggVolStep
      rw [h]
    rw [hstep]
    refine ⟨tsKeys_nodup_set _ _ _ h1, ?_, ?_⟩
    · intro a
      rw [tsKeys_set_present _ _ _ hsome, e2, List.mem_append, h2 a]
      constructor
      · exact Or.inl
      · rintro (ha | ha)
        · exact ha
        · rw [List.mem_singleton] at ha
          subst ha
          exact (h2 _).mp ((tsGet_isSome_iff m row.asset_id).mp hsome)
    · intro kv hkv
      obtain ⟨k, v⟩ := kv
      rcases mem_tsSet_of_nodup m row.asset_id _ h1 (k, v) hkv with heq | ⟨hmem2, hne⟩
      · injection heq with hk hv
        subst hk
        subst hv
        show rowSums (processed ++ [row]) row.asset_id _
        exact rowSums_merge processed row existing hs
      · have hs' : rowSums processed k v := h3 (k, v) hmem2
        show rowSums (processed ++ [row]) k v
        exact rowSums_extend_ne processed row k v hs' (fun he => hne he.symm)

theorem aggVol_fold_invariant (rows : List PriceRow) :
    ∀ (processed : List PriceRow) (m : List (Nat × PriceRow)),
      (tsKeys m).Nodup →
      (∀ a, a ∈ tsKeys m ↔ a ∈ processed.map (fun x => x.asset_id)) →
      (∀ kv ∈ m, rowSums processed kv.1 kv.2) →
      (tsKeys (rows.foldl aggVolStep m)).Nodup ∧
      (∀ a, a ∈ tsKeys (rows.foldl aggVolStep m) ↔
        a ∈ (processed ++ rows).map (fun x => x.asset_id)) ∧
      (∀ kv ∈ rows.foldl aggVolStep m, rowSums (processed ++ rows) kv.1 kv.2) := by
  induction rows with
  | nil =>
    intro processed m hh1 hh2 hh3
    simp only [List.foldl_nil, List.append_nil]
    exact ⟨hh1, hh2, hh3⟩
  | cons row rest ih =>
    intro processed m hh1 hh2 hh3
    rw [List.foldl_cons]
    have hstep := aggVolStep_invariant m row processed hh1 hh2 hh3
    have hres := ih (processed ++ [row]) (aggVolStep m row) hstep.1 hstep.2.1 hstep.2.2
    rw [List.append_assoc, List.singleton_append] at hres
    exact hres

/-- C10: `aggregateVolumeRows` emits exactly one row per distinct input
`asset_id` (no duplicates, no assets lost or invented), and on each output
row every one of the four volume fields parses to the sum of that field,
parsed with the source's `?? '0'` / `?? '0.000000000000'` defaults, over all
input rows with that `asset_id` (native volumes as integers, USDT volumes
at 12-decimal scale): aggregation neither loses nor double-counts volume. -/
theorem aggregateVolumeRows_spec (volumeRows : List PriceRow) :
    ((aggregateVolumeRows volumeRows).map (fun r => r.asset_id)).Nodup ∧
    (∀ a, a ∈ (aggregateVolumeRows volumeRows).map (fun r => r.asset_id) ↔
      a ∈ volumeRows.map (fun x => x.asset_id)) ∧
    (∀ r ∈ aggregateVolumeRows volumeRows,
      natVolVal r.native_volume_sell
        = ((volumeRows.filter (fun x => x.asset_id = r.asset_id)).map
            (fun x => natVolVal x.native_volume_sell)).sum ∧
      usdtVolVal r.usdt_volume_sell
        = ((volumeRows.filter (fun x => x.asset_id = r.asset_id)).map
            (fun x => usdtVolVal x.usdt_volume_sell)).sum ∧
      natVolVal r.native_volume_buy
        = ((volumeRows.filter (fun x => x.asset_id = r.asset_id)).map
            (fun x => natVolVal x.native_volume_buy)).sum ∧
      usdtVolVal r.usdt_volume_buy
        = ((volumeRows.filter (fun x => x.asset_id = r.asset_id)).map
            (fun x => usdtVolVal x.usdt_volume_buy)).sum) := by
  obtain ⟨hnd, hmem, hval⟩ := aggVol_fold_invariant volumeRows [] []
    (by simp [tsKeys]) (by simp [tsKeys]) (by intro kv hkv; simp at hkv)
  rw [List.nil_append] at hmem hval
  have hids : (aggregateVolumeRows volumeRows).map (fun r => r.asset_id)
      = tsKeys (volumeRows.foldl aggVolStep []) := by
    rw [aggregateVolumeRows_eq, List.map_map]
    exact List.map_eq_map_iff.mpr (fun kv hkv => (hval kv hkv).1)
  refine ⟨?_, ?_, ?_⟩
  · rw [hids]
    exact hnd
  · intro a
    rw [hids]
    exact hmem a
  · intro r hr
    rw [aggregateVolumeRows_eq] at hr
    obtain ⟨kv, hkv, hkv2⟩ := List.mem_map.mp hr
    obtain ⟨k, v⟩ := kv
    have hv : v = r := hkv2
    subst hv
    obtain ⟨e0, e1, e2, e3, e4⟩ := hval (k, v) hkv
    have e0' : v.asset_id = k := e0
    have e1' : natVolVal v.native_volume_sell
        = ((volumeRows.filter (fun x => x.asset_id = k)).map
            (fun x => natVolVal x.native_volume_sell)).sum := e1
    have e2' : usdtVolVal v.usdt_volume_sell
        = ((volumeRows.filter (fun x => x.asset_id = k)).map
            (fun x => usdtVolVal x.usdt_volume_sell)).sum := e2
    have e3' : natVolVal v.native_volume_buy
        = ((volumeRows.filter (fun x => x.asset_id = k)).map
            (fun x => natVolVal x.native_volume_buy)).sum := e3
    have e4' : usdtVolVal v.usdt_volume_buy
        = ((volumeRows.filter (fun x => x.asset_id = k)).map
            (fun x => usdtVolVal x.usdt_volume_buy)).sum := e4
    rw [e0']
    exact ⟨e1', e2', e3', e4'⟩

/-- Witness for C10 on two swap rows for the same asset: native sells
`2 + 3 = 5`, USDT sells `1.5 + 2.5 = 4.0`. -/
theorem aggregateVolumeRows_spec_witness :
    natVolVal (some "5")
      = ((([⟨7, 1, "0", some "0", some "2", some "0.000000000000", some "1.500000000000"⟩,
            ⟨7, 1, "0", some "4", some "3", some "0.250000000000", some "2.500000000000"⟩] :
          List PriceRow).filter (fun x => x.asset_id = 7)).map
          (fun x => natVolVal x.native_volume_sell)).sum ∧
    usdtVolVal (some "4.000000000000")
      = ((([⟨7, 1, "0", some "0", some "2", some "0.000000000000", some "1.500000000000"⟩,
            ⟨7, 1, "0", some "4", some "3", some "0.250000000000", some "2.500000000000"⟩] :
          List PriceRow).filter (fun x => x.asset_id = 7)).map
          (fun x => usdtVolVal x.usdt_volume_sell)).sum := by
  have h := (aggregateVolumeRows_spec
    [⟨7, 1, "0", some "0", some "2", some "0.000000000000", some "1.500000000000"⟩,
     ⟨7, 1, "0", some "4", some "3", some "0.250000000000", some "2.500000000000"⟩]).2.2
    ⟨7, 1, "0", some "4", some "5", some "0.250000000000", some "4.000000000000"⟩
    (by decide)
  exact ⟨h.1, h.2.1⟩
